import Mathlib

/-!
Verification of the layout engine of the photo_scoop repository.

The repository contains three variants of an images-to-A4-PDF converter:
`images_to_pdf_v1.py` (flow layout: rows filled left to right, multiple
pages), `images_to_pdf_v2.py` (grid layout: a rows-by-cols grid on a single
page) and `images_to_pdf_v3.py` (spiral layout: a square spiral of uniform
cells on a single page).

The numeric layout arithmetic (Python floats) is embedded over the exact
rationals, so statements that the spec phrases as holding within
floating-point tolerance are proved as exact equalities here.  Pixel
dimensions of images (Python ints obtained from the image probe) are
embedded as naturals.  A probe that fails (`calculate_image_dimensions`
returning `None, None, None` in Python) is embedded as `Option`: an image
whose dimensions cannot be read is `none`.  The division-by-zero that a
zero-sized image would raise in Python is caught by the same `except`
clause, so `calculate_image_dimensions` returns `none` in that case as
well, which the embedding reproduces with an explicit test.

Loops of the Python source are embedded as structural recursions.  The two
loops whose Python form is a `while` over an index (the page loop of
`create_pdf_from_images` and the row loop of `arrange_images_on_page` in
v1) consume at least one image per iteration, so they are embedded with an
explicit fuel argument instantiated with the length of the image list,
which is sufficient: the fuel-exhausted branch returns exactly what the
loop exit returns, and it is reached only when the list is exhausted.
-/

namespace PhotoScoop

/-- Pixel dimensions of an image as reported by the dimension probe
(`img.size` in the Python source). -/
structure ImageDims where
  w : ℕ
  h : ℕ
deriving DecidableEq

/-- One input image: `some d` when the dimension probe succeeds with pixel
dimensions `d`, `none` when the probe raises (corrupt or unsupported
file). -/
abbrev ImageFile := Option ImageDims

/-- `MARGIN = 36` points, from all three source files. -/
def MARGIN : ℚ := 36

/-- `A4_WIDTH` in points: `210 * 72 / 25.4 = 75600 / 127`, the exact value
of reportlab's A4 width. -/
def A4_WIDTH : ℚ := 75600 / 127

/-- `A4_HEIGHT` in points: `297 * 72 / 25.4 = 106920 / 127`, the exact
value of reportlab's A4 height. -/
def A4_HEIGHT : ℚ := 106920 / 127

/-- `calculate_image_dimensions` from all three source files (the function
body is identical in v1, v2 and v3): scale the probed pixel dimensions by
`min (max_width / orig_width) (max_height / orig_height)`.  Returns `none`
when the probe fails, or when a zero pixel dimension would make the Python
code raise `ZeroDivisionError` inside the same `try` block. -/
def calculate_image_dimensions (img : ImageFile) (max_width max_height : ℚ) :
    Option (ℚ × ℚ × ℚ) :=
  match img with
  | none => none
  | some d =>
    if d.w = 0 ∨ d.h = 0 then none
    else
      let width_r := max_width / (d.w : ℚ)
      let height_r := max_height / (d.h : ℚ)
      let scale_factor := min width_r height_r
      some ((d.w : ℚ) * scale_factor, (d.h : ℚ) * scale_factor, scale_factor)

/-- A resolved placement of one image: the image's index in the input
list, its lower-left corner, its size in points and the scale factor that
produced that size.  This is the dict the Python sources append to
`arranged_images` (v2, v3) or the drawn rectangle (v1). -/
structure Placement where
  idx : ℕ
  x : ℚ
  y : ℚ
  width : ℚ
  height : ℚ
  scale : ℚ
deriving DecidableEq

/-- Two placements overlap when the interiors of their rectangles share a
point. -/
def overlaps (p q : Placement) : Prop :=
  max p.x q.x < min (p.x + p.width) (q.x + q.width) ∧
  max p.y q.y < min (p.y + p.height) (q.y + q.height)

instance (p q : Placement) : Decidable (overlaps p q) := by
  unfold overlaps; infer_instance

/-- An image file is acceptable when, if its probe succeeds, both pixel
dimensions are positive (which is what a real image probe reports). -/
def okI : ImageFile → Bool
  | none => true
  | some d => decide (0 < d.w) && decide (0 < d.h)

/-! ## Basic facts about `calculate_image_dimensions` -/

theorem calc_dims_eq_some {img : ImageFile} {bw bh w h s : ℚ}
    (hc : calculate_image_dimensions img bw bh = some (w, h, s)) :
    ∃ d : ImageDims, img = some d ∧ d.w ≠ 0 ∧ d.h ≠ 0 ∧
      s = min (bw / (d.w : ℚ)) (bh / (d.h : ℚ)) ∧
      w = (d.w : ℚ) * s ∧ h = (d.h : ℚ) * s := by
  match img with
  | none => simp [calculate_image_dimensions] at hc
  | some d =>
    by_cases hz : d.w = 0 ∨ d.h = 0
    · simp [calculate_image_dimensions, hz] at hc
    · push_neg at hz
      refine ⟨d, rfl, hz.1, hz.2, ?_⟩
      simp only [calculate_image_dimensions] at hc
      rw [if_neg (by simp [hz.1, hz.2])] at hc
      simp only [Option.some.injEq, Prod.mk.injEq] at hc
      exact ⟨hc.2.2.symm, hc.1.symm.trans (by rw [hc.2.2]),
        hc.2.1.symm.trans (by rw [hc.2.2])⟩

theorem calc_dims_shape {img : ImageFile} {bw bh w h s : ℚ}
    (hc : calculate_image_dimensions img bw bh = some (w, h, s)) :
    ∃ d : ImageDims, img = some d ∧ 0 < d.w ∧ 0 < d.h ∧
      w = (d.w : ℚ) * s ∧ h = (d.h : ℚ) * s ∧
      w * (d.h : ℚ) = h * (d.w : ℚ) ∧ w ≤ bw ∧ h ≤ bh ∧ (w = bw ∨ h = bh) := by
  obtain ⟨d, hi, hw0, hh0, hs, hw, hh⟩ := calc_dims_eq_some hc
  have hwpos : (0 : ℚ) < (d.w : ℚ) := by exact_mod_cast Nat.pos_of_ne_zero hw0
  have hhpos : (0 : ℚ) < (d.h : ℚ) := by exact_mod_cast Nat.pos_of_ne_zero hh0
  refine ⟨d, hi, Nat.pos_of_ne_zero hw0, Nat.pos_of_ne_zero hh0, hw, hh, ?_, ?_, ?_, ?_⟩
  · rw [hw, hh]; ring
  · rw [hw]
    calc (d.w : ℚ) * s ≤ (d.w : ℚ) * (bw / (d.w : ℚ)) := by
          exact mul_le_mul_of_nonneg_left (hs ▸ min_le_left _ _) hwpos.le
    _ = bw := by field_simp
  · rw [hh]
    calc (d.h : ℚ) * s ≤ (d.h : ℚ) * (bh / (d.h : ℚ)) := by
          exact mul_le_mul_of_nonneg_left (hs ▸ min_le_right _ _) hhpos.le
    _ = bh := by field_simp
  · rcases min_choice (bw / (d.w : ℚ)) (bh / (d.h : ℚ)) with hmn | hmn
    · left; rw [hw, hs, hmn]; field_simp
    · right; rw [hh, hs, hmn]; field_simp

theorem calc_dims_none_iff (img : ImageFile) (bw bh : ℚ) :
    calculate_image_dimensions img bw bh = none ↔
      img = none ∨ ∃ d, img = some d ∧ (d.w = 0 ∨ d.h = 0) := by
  match img with
  | none => simp [calculate_image_dimensions]
  | some d =>
    by_cases hz : d.w = 0 ∨ d.h = 0 <;>
      simp [calculate_image_dimensions, hz]

theorem calc_dims_isSome (d : ImageDims) (hw : 0 < d.w) (hh : 0 < d.h) (bw bh : ℚ) :
    calculate_image_dimensions (some d) bw bh =
      some ((d.w : ℚ) * min (bw / (d.w : ℚ)) (bh / (d.h : ℚ)),
            (d.h : ℚ) * min (bw / (d.w : ℚ)) (bh / (d.h : ℚ)),
            min (bw / (d.w : ℚ)) (bh / (d.h : ℚ))) := by
  simp only [calculate_image_dimensions]
  rw [if_neg (by omega)]

/-! ## Grid layout (`images_to_pdf_v2.py`) -/

/-- Exact value of Python's `math.ceil(math.sqrt(n))` for a natural `n`. -/
def ceil_sqrt (n : ℕ) : ℕ :=
  if Nat.sqrt n * Nat.sqrt n = n then Nat.sqrt n else Nat.sqrt n + 1

/-- `calculate_grid_layout` from `images_to_pdf_v2.py`, lines 67-91: a
lookup table for up to 25 images, and a roughly square grid
(`cols = ceil (sqrt n)`, `rows = ceil (n / cols)`) beyond that.  The Python
`math.ceil(num_images / cols)` is the exact ceiling `(n + cols - 1) / cols`
in natural division. -/
def calculate_grid_layout (num_images : ℕ) : ℕ × ℕ :=
  if num_images = 1 then (1, 1)
  else if num_images = 2 then (1, 2)
  else if num_images ≤ 4 then (2, 2)
  else if num_images ≤ 6 then (2, 3)
  else if num_images ≤ 9 then (3, 3)
  else if num_images ≤ 12 then (3, 4)
  else if num_images ≤ 16 then (4, 4)
  else if num_images ≤ 20 then (4, 5)
  else if num_images ≤ 25 then (5, 5)
  else
    let cols := ceil_sqrt num_images
    let rows := (num_images + cols - 1) / cols
    (rows, cols)

namespace V2

/-- Spacing between grid cells, `spacing = 5` in
`arrange_all_images_on_single_page` of v2. -/
def spacing : ℚ := 5

/-- The `for i, img_path in enumerate(image_files)` loop of
`arrange_all_images_on_single_page` in v2 (lines 113-142): image `i` goes
to row `i / cols`, column `i % cols`; its cell's lower-left corner is
`(col * (cell_width + spacing), available_height - (row+1) * cell_height -
row * spacing)`; the image is scaled to fit the cell and centered in it.
Images whose probe fails are dropped. -/
def arrangeAux (cols : ℕ) (cell_width cell_height available_height : ℚ) :
    ℕ → List ImageFile → List Placement
  | _, [] => []
  | i, img :: rest =>
    let row := i / cols
    let col := i % cols
    let x : ℚ := (col : ℚ) * (cell_width + spacing)
    let y : ℚ := available_height - ((row : ℚ) + 1) * cell_height - (row : ℚ) * spacing
    match calculate_image_dimensions img cell_width cell_height with
    | none => arrangeAux cols cell_width cell_height available_height (i + 1) rest
    | some (w, h, s) =>
      { idx := i,
        x := (x + cell_width / 2) - w / 2,
        y := (y + cell_height / 2) - h / 2,
        width := w, height := h, scale := s } ::
        arrangeAux cols cell_width cell_height available_height (i + 1) rest

/-- `arrange_all_images_on_single_page` from `images_to_pdf_v2.py`,
lines 93-143. -/
def arrange_all_images_on_single_page (image_files : List ImageFile)
    (available_width available_height : ℚ) : List Placement :=
  if image_files.length = 0 then []
  else
    let rc := calculate_grid_layout image_files.length
    let rows := rc.1
    let cols := rc.2
    let cell_width := (available_width - ((cols : ℚ) - 1) * spacing) / (cols : ℚ)
    let cell_height := (available_height - ((rows : ℚ) - 1) * spacing) / (rows : ℚ)
    arrangeAux cols cell_width cell_height available_height 0 image_files

end V2

/-! ### Facts about `calculate_grid_layout` -/

theorem ceil_sqrt_sq_ge (n : ℕ) : n ≤ ceil_sqrt n * ceil_sqrt n := by
  unfold ceil_sqrt
  split
  · omega
  · have := Nat.lt_succ_sqrt n
    nlinarith [Nat.sqrt_le_self n]

theorem ceil_sqrt_pos (n : ℕ) (hn : 1 ≤ n) : 1 ≤ ceil_sqrt n := by
  have h2 := ceil_sqrt_sq_ge n
  rcases Nat.eq_zero_or_pos (ceil_sqrt n) with h0 | h0
  · rw [h0, Nat.zero_mul] at h2; omega
  · exact h0

/-- For more than 25 images `calculate_grid_layout` takes the
nearest-square fallback branch. -/
theorem grid_fallback (n : ℕ) (hn : 25 < n) :
    calculate_grid_layout n = ((n + ceil_sqrt n - 1) / ceil_sqrt n, ceil_sqrt n) := by
  unfold calculate_grid_layout
  repeat rw [if_neg (by omega)]

theorem ceil_div_mul_ge (n c : ℕ) (hc : 1 ≤ c) : n ≤ (n + c - 1) / c * c := by
  have hdm := Nat.div_add_mod (n + c - 1) c
  have hr : (n + c - 1) % c < c := Nat.mod_lt _ (by omega)
  set q := (n + c - 1) / c with hq
  set r := (n + c - 1) % c with hrr
  zify [show 1 ≤ n + c by omega] at hdm
  nlinarith [hdm, hr]

theorem ceil_div_le_of_le_sq (n c : ℕ) (hc : 1 ≤ c) (hn : n ≤ c * c) :
    (n + c - 1) / c ≤ c := by
  have hlt : (n + c - 1) / c < c + 1 := by
    rw [Nat.div_lt_iff_lt_mul (by omega)]
    have hcc : (c + 1) * c = c * c + c := by ring
    omega
  omega

theorem grid_cols_pos (n : ℕ) (hn : 1 ≤ n) : 1 ≤ (calculate_grid_layout n).2 := by
  by_cases h : n ≤ 25
  · interval_cases n <;> decide
  · rw [grid_fallback n (by omega)]
    exact ceil_sqrt_pos n hn

theorem grid_rows_pos (n : ℕ) (hn : 1 ≤ n) : 1 ≤ (calculate_grid_layout n).1 := by
  by_cases h : n ≤ 25
  · interval_cases n <;> decide
  · rw [grid_fallback n (by omega)]
    have hc := ceil_sqrt_pos n hn
    have hge := ceil_div_mul_ge n (ceil_sqrt n) hc
    rcases Nat.eq_zero_or_pos ((n + ceil_sqrt n - 1) / ceil_sqrt n) with h0 | h0
    · rw [h0, Nat.zero_mul] at hge; omega
    · exact h0

theorem grid_covers (n : ℕ) (hn : 1 ≤ n) :
    n ≤ (calculate_grid_layout n).1 * (calculate_grid_layout n).2 := by
  by_cases h : n ≤ 25
  · interval_cases n <;> decide
  · rw [grid_fallback n (by omega)]
    exact ceil_div_mul_ge n (ceil_sqrt n) (ceil_sqrt_pos n hn)

theorem grid_not_oversized (n : ℕ) (hn : 1 ≤ n) :
    (calculate_grid_layout n).1 * (calculate_grid_layout n).2 <
      n + max (calculate_grid_layout n).1 (calculate_grid_layout n).2 := by
  by_cases h : n ≤ 25
  · interval_cases n <;> decide
  · rw [grid_fallback n (by omega)]
    have hc := ceil_sqrt_pos n hn
    have hsq := ceil_sqrt_sq_ge n
    have hrle : (n + ceil_sqrt n - 1) / ceil_sqrt n ≤ ceil_sqrt n :=
      ceil_div_le_of_le_sq n (ceil_sqrt n) hc hsq
    have hub : (n + ceil_sqrt n - 1) / ceil_sqrt n * ceil_sqrt n ≤ n + ceil_sqrt n - 1 :=
      Nat.div_mul_le_self _ _
    simp only [max_eq_right hrle]
    omega

theorem sqrt_30_eq : Nat.sqrt 30 = 5 := by
  have h1 : 5 ≤ Nat.sqrt 30 := Nat.le_sqrt.mpr (by norm_num)
  have h2 : Nat.sqrt 30 < 6 := Nat.sqrt_lt.mpr (by norm_num)
  omega

theorem ceil_sqrt_30 : ceil_sqrt 30 = 6 := by
  unfold ceil_sqrt
  rw [sqrt_30_eq]
  norm_num

theorem grid_layout_30 : calculate_grid_layout 30 = (5, 6) := by
  rw [grid_fallback 30 (by omega), ceil_sqrt_30]

/-- Claim C2: for every image count `N ≥ 1`, grid layout selects rows and
cols exactly by the lookup table (1 gives 1x1, 2 gives 1x2, up to 4 gives
2x2, up to 6 gives 2x3, up to 9 gives 3x3, up to 12 gives 3x4, up to 16
gives 4x4, up to 20 gives 4x5, up to 25 gives 5x5) and for `N > 25`
selects `cols = ceil (sqrt N)` and `rows = ceil (N / cols)`; in particular
`N = 30` yields `cols = 6` and `rows = 5`, and for every `N` the result
satisfies `rows * cols ≥ N` and `rows * cols < N + max rows cols`. -/
theorem claim_C2 (N : ℕ) (hN : 1 ≤ N) :
    (N = 1 → calculate_grid_layout N = (1, 1)) ∧
    (N = 2 → calculate_grid_layout N = (1, 2)) ∧
    (3 ≤ N → N ≤ 4 → calculate_grid_layout N = (2, 2)) ∧
    (5 ≤ N → N ≤ 6 → calculate_grid_layout N = (2, 3)) ∧
    (7 ≤ N → N ≤ 9 → calculate_grid_layout N = (3, 3)) ∧
    (10 ≤ N → N ≤ 12 → calculate_grid_layout N = (3, 4)) ∧
    (13 ≤ N → N ≤ 16 → calculate_grid_layout N = (4, 4)) ∧
    (17 ≤ N → N ≤ 20 → calculate_grid_layout N = (4, 5)) ∧
    (21 ≤ N → N ≤ 25 → calculate_grid_layout N = (5, 5)) ∧
    (25 < N → calculate_grid_layout N =
      ((N + ceil_sqrt N - 1) / ceil_sqrt N, ceil_sqrt N)) ∧
    calculate_grid_layout 30 = (5, 6) ∧
    N ≤ (calculate_grid_layout N).1 * (calculate_grid_layout N).2 ∧
    (calculate_grid_layout N).1 * (calculate_grid_layout N).2 <
      N + max (calculate_grid_layout N).1 (calculate_grid_layout N).2 := by
  refine ⟨?_, ?_, ?_, ?_, ?_, ?_, ?_, ?_, ?_, ?_, ?_, ?_, ?_⟩
  · rintro rfl; decide
  · rintro rfl; decide
  · intro h1 h2; interval_cases N <;> decide
  · intro h1 h2; interval_cases N <;> decide
  · intro h1 h2; interval_cases N <;> decide
  · intro h1 h2; interval_cases N <;> decide
  · intro h1 h2; interval_cases N <;> decide
  · intro h1 h2; interval_cases N <;> decide
  · intro h1 h2; interval_cases N <;> decide
  · intro h; exact grid_fallback N h
  · exact grid_layout_30
  · exact grid_covers N hN
  · exact grid_not_oversized N hN

/-- Witness for C2: the theorem applied at the concrete count 30 gives the
5x6 grid of scenario C and the covering bound. -/
theorem claim_C2_witness :
    1 ≤ 30 ∧ calculate_grid_layout 30 = (5, 6) ∧
      30 ≤ (calculate_grid_layout 30).1 * (calculate_grid_layout 30).2 :=
  ⟨by decide, (claim_C2 30 (by decide)).2.2.2.2.2.2.2.2.2.2.1,
    (claim_C2 30 (by decide)).2.2.2.2.2.2.2.2.2.2.2.1⟩

/-- Whether the dimension probe of an image yields usable (nonzero)
dimensions; `calculate_image_dimensions` succeeds exactly on these. -/
def probeOk : ImageFile → Bool
  | none => false
  | some d => decide (0 < d.w) && decide (0 < d.h)

theorem calc_dims_isSome_iff (img : ImageFile) (bw bh : ℚ) :
    (calculate_image_dimensions img bw bh).isSome = probeOk img := by
  match img with
  | none => rfl
  | some d =>
    by_cases hz : d.w = 0 ∨ d.h = 0
    · simp [calculate_image_dimensions, probeOk, hz]
      omega
    · simp [calculate_image_dimensions, probeOk, hz]
      omega

namespace V2

/-- The lower-left x of grid cell `i` (column `i % cols`), from line 120
of v2: `x = col * (cell_width + spacing)`. -/
def cellX (cols : ℕ) (cell_width : ℚ) (i : ℕ) : ℚ :=
  ((i % cols : ℕ) : ℚ) * (cell_width + spacing)

/-- The lower-left y of grid cell `i` (row `i / cols`), from line 121 of
v2: `y = available_height - (row + 1) * cell_height - row * spacing`. -/
def cellY (cols : ℕ) (cell_height available_height : ℚ) (i : ℕ) : ℚ :=
  available_height - (((i / cols : ℕ) : ℚ) + 1) * cell_height -
    ((i / cols : ℕ) : ℚ) * spacing

theorem arrangeAux_mem {cols : ℕ} {cw ch ah : ℚ} :
    ∀ (l : List ImageFile) (k : ℕ) (p : Placement),
      p ∈ arrangeAux cols cw ch ah k l →
      k ≤ p.idx ∧ p.idx - k < l.length ∧
      calculate_image_dimensions (l.getD (p.idx - k) none) cw ch
        = some (p.width, p.height, p.scale) ∧
      p.x = cellX cols cw p.idx + cw / 2 - p.width / 2 ∧
      p.y = cellY cols ch ah p.idx + ch / 2 - p.height / 2
  | [], k, p, hp => by simp [arrangeAux] at hp
  | img :: rest, k, p, hp => by
    simp only [arrangeAux] at hp
    cases hcalc : calculate_image_dimensions img cw ch with
    | none =>
      rw [hcalc] at hp
      obtain ⟨h1, h2, h3, h4, h5⟩ := arrangeAux_mem rest (k + 1) p hp
      refine ⟨by omega, by simp; omega, ?_, h4, h5⟩
      have : p.idx - k = (p.idx - (k + 1)) + 1 := by omega
      rw [this, List.getD_cons_succ]
      exact h3
    | some whs =>
      obtain ⟨w, h, s⟩ := whs
      rw [hcalc] at hp
      rcases List.mem_cons.mp hp with hhead | htail
      · subst hhead
        refine ⟨le_refl _, by simp, ?_, ?_, ?_⟩
        · simp only [Nat.sub_self, List.getD_cons_zero]
          exact hcalc
        · simp only [cellX]
        · simp only [cellY]
      · obtain ⟨h1, h2, h3, h4, h5⟩ := arrangeAux_mem rest (k + 1) p htail
        refine ⟨by omega, by simp; omega, ?_, h4, h5⟩
        have : p.idx - k = (p.idx - (k + 1)) + 1 := by omega
        rw [this, List.getD_cons_succ]
        exact h3

theorem arrangeAux_pairwise_idx {cols : ℕ} {cw ch ah : ℚ} :
    ∀ (l : List ImageFile) (k : ℕ),
      (arrangeAux cols cw ch ah k l).Pairwise (fun p q => p.idx < q.idx)
  | [], k => by simp [arrangeAux]
  | img :: rest, k => by
    simp only [arrangeAux]
    cases hcalc : calculate_image_dimensions img cw ch with
    | none => exact arrangeAux_pairwise_idx rest (k + 1)
    | some whs =>
      obtain ⟨w, h, s⟩ := whs
      refine List.Pairwise.cons ?_ (arrangeAux_pairwise_idx rest (k + 1))
      intro q hq
      have := (arrangeAux_mem rest (k + 1) q hq).1
      simpa using by omega

theorem arrangeAux_length {cols : ℕ} {cw ch ah : ℚ} :
    ∀ (l : List ImageFile) (k : ℕ),
      (arrangeAux cols cw ch ah k l).length = l.countP probeOk
  | [], k => by simp [arrangeAux]
  | img :: rest, k => by
    simp only [arrangeAux]
    have hok := calc_dims_isSome_iff img cw ch
    cases hcalc : calculate_image_dimensions img cw ch with
    | none =>
      rw [hcalc] at hok
      rw [List.countP_cons, ← hok]
      simp [arrangeAux_length rest (k + 1)]
    | some whs =>
      obtain ⟨w, h, s⟩ := whs
      rw [hcalc] at hok
      rw [List.countP_cons, ← hok]
      simp [arrangeAux_length rest (k + 1)]

end V2

/-- Overlapping placements have positive widths and heights (the interiors
of degenerate rectangles are empty). -/
theorem overlaps_pos {p q : Placement} (h : overlaps p q) :
    0 < p.width ∧ 0 < q.width ∧ 0 < p.height ∧ 0 < q.height := by
  obtain ⟨hx, hy⟩ := h
  have h1 : p.x < p.x + p.width :=
    lt_of_le_of_lt (le_max_left _ _) (hx.trans_le (min_le_left _ _))
  have h2 : q.x < q.x + q.width :=
    lt_of_le_of_lt (le_max_right _ _) (hx.trans_le (min_le_right _ _))
  have h3 : p.y < p.y + p.height :=
    lt_of_le_of_lt (le_max_left _ _) (hy.trans_le (min_le_left _ _))
  have h4 : q.y < q.y + q.height :=
    lt_of_le_of_lt (le_max_right _ _) (hy.trans_le (min_le_right _ _))
  exact ⟨by linarith, by linarith, by linarith, by linarith⟩

/-- If a successfully scaled image has positive width then the bounding
box it was scaled to and the scale factor are positive. -/
theorem calc_pos_box {img : ImageFile} {bw bh w h s : ℚ}
    (hc : calculate_image_dimensions img bw bh = some (w, h, s)) (hw : 0 < w) :
    0 < bw ∧ 0 < bh ∧ 0 < s := by
  obtain ⟨d, -, hw0, hh0, hs, hweq, -⟩ := calc_dims_eq_some hc
  have hwpos : (0 : ℚ) < (d.w : ℚ) := by exact_mod_cast Nat.pos_of_ne_zero hw0
  have hhpos : (0 : ℚ) < (d.h : ℚ) := by exact_mod_cast Nat.pos_of_ne_zero hh0
  have hspos : 0 < s := by
    by_contra hns
    push_neg at hns
    nlinarith [hweq]
  refine ⟨?_, ?_, hspos⟩
  · have : 0 < bw / (d.w : ℚ) := lt_of_lt_of_le hspos (hs ▸ min_le_left _ _)
    exact (div_pos_iff.mp this).resolve_right (by rintro ⟨-, hlt⟩; linarith) |>.1
  · have : 0 < bh / (d.h : ℚ) := lt_of_lt_of_le hspos (hs ▸ min_le_right _ _)
    exact (div_pos_iff.mp this).resolve_right (by rintro ⟨-, hlt⟩; linarith) |>.1

/-- Distinct indices occupy a distinct row or a distinct column. -/
theorem div_mod_distinct {i j c : ℕ} (h : i ≠ j) : i / c ≠ j / c ∨ i % c ≠ j % c := by
  by_contra hc
  push_neg at hc
  apply h
  have h1 := Nat.div_add_mod i c
  have h2 := Nat.div_add_mod j c
  rw [← h1, ← h2, hc.1, hc.2]

namespace V2

theorem placement_in_cell {cols : ℕ} {cw ch ah : ℚ} {l : List ImageFile} {k : ℕ}
    {p : Placement} (hp : p ∈ arrangeAux cols cw ch ah k l) :
    cellX cols cw p.idx ≤ p.x ∧ p.x + p.width ≤ cellX cols cw p.idx + cw ∧
    cellY cols ch ah p.idx ≤ p.y ∧ p.y + p.height ≤ cellY cols ch ah p.idx + ch := by
  obtain ⟨-, -, hcalc, hx, hy⟩ := arrangeAux_mem _ _ _ hp
  obtain ⟨d, -, -, -, -, -, -, hwle, hhle, -⟩ := calc_dims_shape hcalc
  refine ⟨?_, ?_, ?_, ?_⟩ <;> [rw [hx]; rw [hx]; rw [hy]; rw [hy]] <;> linarith

theorem no_overlap {cols : ℕ} {cw ch ah : ℚ} {l : List ImageFile} {k : ℕ}
    {p q : Placement}
    (hp : p ∈ arrangeAux cols cw ch ah k l) (hq : q ∈ arrangeAux cols cw ch ah k l)
    (hne : p.idx ≠ q.idx) : ¬ overlaps p q := by
  intro hov
  obtain ⟨hpw, hqw, hph, hqh⟩ := overlaps_pos hov
  obtain ⟨-, -, hcalcp, -, -⟩ := arrangeAux_mem _ _ _ hp
  obtain ⟨hcw, hch, -⟩ := calc_pos_box hcalcp hpw
  obtain ⟨hpx1, hpx2, hpy1, hpy2⟩ := placement_in_cell hp
  obtain ⟨hqx1, hqx2, hqy1, hqy2⟩ := placement_in_cell hq
  have hpxq : p.x < q.x + q.width :=
    lt_of_le_of_lt (le_max_left _ _) (hov.1.trans_le (min_le_right _ _))
  have hqxp : q.x < p.x + p.width :=
    lt_of_le_of_lt (le_max_right _ _) (hov.1.trans_le (min_le_left _ _))
  have hpyq : p.y < q.y + q.height :=
    lt_of_le_of_lt (le_max_left _ _) (hov.2.trans_le (min_le_right _ _))
  have hqyp : q.y < p.y + p.height :=
    lt_of_le_of_lt (le_max_right _ _) (hov.2.trans_le (min_le_left _ _))
  have hsp : (0 : ℚ) < spacing := by norm_num [spacing]
  rcases div_mod_distinct (c := cols) hne with hrow | hcol
  · -- distinct rows: vertical separation of the two cells
    rcases lt_or_gt_of_ne hrow with hlt | hlt
    · have hcast : ((p.idx / cols : ℕ) : ℚ) + 1 ≤ ((q.idx / cols : ℕ) : ℚ) := by
        exact_mod_cast Nat.succ_le_of_lt hlt
      have hmul : ch * 1 ≤ ch * (((q.idx / cols : ℕ) : ℚ) - ((p.idx / cols : ℕ) : ℚ)) :=
        mul_le_mul_of_nonneg_left (by linarith) hch.le
      have hmul2 : spacing * 1 ≤
          spacing * (((q.idx / cols : ℕ) : ℚ) - ((p.idx / cols : ℕ) : ℚ)) :=
        mul_le_mul_of_nonneg_left (by linarith) hsp.le
      simp only [cellY] at hpy1 hqy2
      linarith [hmul, hmul2, hpy1, hqy2, hpyq, hsp]
    · have hcast : ((q.idx / cols : ℕ) : ℚ) + 1 ≤ ((p.idx / cols : ℕ) : ℚ) := by
        exact_mod_cast Nat.succ_le_of_lt hlt
      have hmul : ch * 1 ≤ ch * (((p.idx / cols : ℕ) : ℚ) - ((q.idx / cols : ℕ) : ℚ)) :=
        mul_le_mul_of_nonneg_left (by linarith) hch.le
      have hmul2 : spacing * 1 ≤
          spacing * (((p.idx / cols : ℕ) : ℚ) - ((q.idx / cols : ℕ) : ℚ)) :=
        mul_le_mul_of_nonneg_left (by linarith) hsp.le
      simp only [cellY] at hqy1 hpy2
      linarith [hmul, hmul2, hqy1, hpy2, hqyp, hsp]
  · -- distinct columns: horizontal separation of the two cells
    rcases lt_or_gt_of_ne hcol with hlt | hlt
    · have hcast : ((p.idx % cols : ℕ) : ℚ) + 1 ≤ ((q.idx % cols : ℕ) : ℚ) := by
        exact_mod_cast Nat.succ_le_of_lt hlt
      have hmul : (cw + spacing) * 1 ≤
          (cw + spacing) * (((q.idx % cols : ℕ) : ℚ) - ((p.idx % cols : ℕ) : ℚ)) :=
        mul_le_mul_of_nonneg_left (by linarith) (by linarith)
      simp only [cellX] at hpx2 hqx1
      linarith [hmul, hpx2, hqx1, hqxp, hsp]
    · have hcast : ((q.idx % cols : ℕ) : ℚ) + 1 ≤ ((p.idx % cols : ℕ) : ℚ) := by
        exact_mod_cast Nat.succ_le_of_lt hlt
      have hmul : (cw + spacing) * 1 ≤
          (cw + spacing) * (((p.idx % cols : ℕ) : ℚ) - ((q.idx % cols : ℕ) : ℚ)) :=
        mul_le_mul_of_nonneg_left (by linarith) (by linarith)
      simp only [cellX] at hqx2 hpx1
      linarith [hmul, hqx2, hpx1, hpxq, hsp]

/-- The placement that lines 115-141 of v2 produce for the single cell of
index `i` holding image `img`: row `i / cols`, column `i % cols`, the
image scaled to the cell and centered in it; `none` when the probe
fails. -/
def cellPlacement (cols : ℕ) (cw ch ah : ℚ) (i : ℕ) (img : ImageFile) :
    Option Placement :=
  match calculate_image_dimensions img cw ch with
  | none => none
  | some (w, h, s) =>
    some { idx := i,
           x := cellX cols cw i + cw / 2 - w / 2,
           y := cellY cols ch ah i + ch / 2 - h / 2,
           width := w, height := h, scale := s }

theorem arrangeAux_find? {cols : ℕ} {cw ch ah : ℚ} :
    ∀ (l : List ImageFile) (k i : ℕ),
      (arrangeAux cols cw ch ah k l).find? (fun p => p.idx == i) =
        if k ≤ i ∧ i - k < l.length then
          cellPlacement cols cw ch ah i (l.getD (i - k) none)
        else none
  | [], k, i => by simp [arrangeAux]
  | img :: rest, k, i => by
    simp only [arrangeAux]
    cases hcalc : calculate_image_dimensions img cw ch with
    | none =>
      rw [arrangeAux_find? rest (k + 1) i]
      rcases Nat.lt_trichotomy i k with hik | hik | hik
      · rw [if_neg (by omega), if_neg (by omega)]
      · subst hik
        rw [if_neg (by omega), if_pos (by simp)]
        simp [cellPlacement, hcalc]
      · by_cases hlen : i - (k + 1) < rest.length
        · rw [if_pos (by omega), if_pos (by simp; omega)]
          have : i - k = (i - (k + 1)) + 1 := by omega
          rw [this, List.getD_cons_succ]
        · rw [if_neg (by omega), if_neg (by simp; omega)]
    | some whs =>
      obtain ⟨w, h, s⟩ := whs
      by_cases hik : k = i
      · subst hik
        rw [List.find?_cons_of_pos _ (by simp)]
        rw [if_pos (by simp)]
        simp [cellPlacement, hcalc, Nat.sub_self, cellX, cellY]
      · rw [List.find?_cons_of_neg _ (by simp; omega)]
        rw [arrangeAux_find? rest (k + 1) i]
        rcases Nat.lt_trichotomy i k with hik2 | hik2 | hik2
        · rw [if_neg (by omega), if_neg (by omega)]
        · omega
        · by_cases hlen : i - (k + 1) < rest.length
          · rw [if_pos (by omega), if_pos (by simp; omega)]
            have : i - k = (i - (k + 1)) + 1 := by omega
            rw [this, List.getD_cons_succ]
          · rw [if_neg (by omega), if_neg (by simp; omega)]

/-- The placement grid layout emits for input index `i`, looked up in the
arranged list by index. -/
def gridPlacementFor (image_files : List ImageFile) (aw ah : ℚ) (i : ℕ) :
    Option Placement :=
  (arrange_all_images_on_single_page image_files aw ah).find? (fun p => p.idx == i)

/-- The placement the v2 grid assigns to cell `i` of an `N`-image run, as
a function of only `N`, the canvas, `i` and the image at `i`. -/
def gridCellSpec (N : ℕ) (aw ah : ℚ) (i : ℕ) (img : ImageFile) : Option Placement :=
  let rc := calculate_grid_layout N
  let cw := (aw - ((rc.2 : ℚ) - 1) * spacing) / (rc.2 : ℚ)
  let ch := (ah - ((rc.1 : ℚ) - 1) * spacing) / (rc.1 : ℚ)
  cellPlacement rc.2 cw ch ah i img

theorem gridPlacementFor_eq (image_files : List ImageFile) (aw ah : ℚ) (i : ℕ)
    (hi : i < image_files.length) :
    gridPlacementFor image_files aw ah i =
      gridCellSpec image_files.length aw ah i (image_files.getD i none) := by
  unfold gridPlacementFor arrange_all_images_on_single_page gridCellSpec
  rw [if_neg (by omega)]
  rw [arrangeAux_find? image_files 0 i]
  rw [if_pos (by omega)]
  simp only [Nat.sub_zero]

theorem gridPlacementFor_none (image_files : List ImageFile) (aw ah : ℚ) (i : ℕ)
    (hi : image_files.length ≤ i) :
    gridPlacementFor image_files aw ah i = none := by
  unfold gridPlacementFor arrange_all_images_on_single_page
  by_cases h0 : image_files.length = 0
  · rw [if_pos h0]; rfl
  · rw [if_neg h0]
    rw [arrangeAux_find? image_files 0 i]
    rw [if_neg (by omega)]

theorem arrange_all_self_cell (image_files : List ImageFile) (aw ah : ℚ)
    (p : Placement)
    (hp : p ∈ arrange_all_images_on_single_page image_files aw ah) :
    gridCellSpec image_files.length aw ah p.idx (image_files.getD p.idx none)
      = some p := by
  unfold arrange_all_images_on_single_page at hp
  by_cases h0 : image_files.length = 0
  · rw [if_pos h0] at hp; simp at hp
  · rw [if_neg h0] at hp
    obtain ⟨hk, hlen, hcalc, hx, hy⟩ := arrangeAux_mem _ _ _ hp
    simp only [Nat.sub_zero] at hlen hcalc
    simp only [gridCellSpec, cellPlacement]
    rw [hcalc]
    simp only [Option.some.injEq]
    cases p
    simp_all

end V2

/-- Claim C10: in grid layout, the cell assigned to the image at input
index `i` is determined only by `i` and the total input count `N` (row
`i / cols`, column `i % cols` of the `N`-derived grid); therefore, for any
two runs that differ only in whether some other image's dimension probe
succeeds (same length, same entry at `i`), image `i` receives the
identical position and size, and a probe-failed image leaves its own cell
empty rather than shifting later images into it (every emitted placement
sits in the cell of its own input index). -/
theorem claim_C10 :
    (∀ (imgs1 imgs2 : List ImageFile) (aw ah : ℚ) (i : ℕ),
        imgs1.length = imgs2.length →
        imgs1.getD i none = imgs2.getD i none →
        V2.gridPlacementFor imgs1 aw ah i = V2.gridPlacementFor imgs2 aw ah i) ∧
    (∀ (imgs : List ImageFile) (aw ah : ℚ) (i : ℕ),
        imgs.getD i none = none →
        V2.gridPlacementFor imgs aw ah i = none) ∧
    (∀ (imgs : List ImageFile) (aw ah : ℚ) (p : Placement),
        p ∈ V2.arrange_all_images_on_single_page imgs aw ah →
        V2.gridCellSpec imgs.length aw ah p.idx (imgs.getD p.idx none) = some p) := by
  refine ⟨?_, ?_, fun imgs aw ah p hp => V2.arrange_all_self_cell imgs aw ah p hp⟩
  · intro imgs1 imgs2 aw ah i hlen hget
    by_cases hi : i < imgs1.length
    · rw [V2.gridPlacementFor_eq imgs1 aw ah i hi,
        V2.gridPlacementFor_eq imgs2 aw ah i (hlen ▸ hi), hlen, hget]
    · rw [V2.gridPlacementFor_none imgs1 aw ah i (by omega),
        V2.gridPlacementFor_none imgs2 aw ah i (by omega)]
  · intro imgs aw ah i hnone
    by_cases hi : i < imgs.length
    · rw [V2.gridPlacementFor_eq imgs aw ah i hi, hnone]
      rfl
    · exact V2.gridPlacementFor_none imgs aw ah i (by omega)

/-- Witness for C10: two concrete 2-image runs that agree at index 0 but
differ in whether the probe of image 1 succeeds produce the identical
placement for image 0. -/
theorem claim_C10_witness :
    ([some ⟨2, 2⟩, some ⟨1, 1⟩] : List ImageFile).length
        = ([some ⟨2, 2⟩, none] : List ImageFile).length ∧
    ([some ⟨2, 2⟩, some ⟨1, 1⟩] : List ImageFile).getD 0 none
        = ([some ⟨2, 2⟩, none] : List ImageFile).getD 0 none ∧
    V2.gridPlacementFor [some ⟨2, 2⟩, some ⟨1, 1⟩] 100 200 0
        = V2.gridPlacementFor [some ⟨2, 2⟩, none] 100 200 0 :=
  ⟨by decide, by decide, claim_C10.1 _ _ 100 200 0 (by decide) (by decide)⟩

/-! ## Spiral layout (`images_to_pdf_v3.py`) -/

namespace V3

/-- The loop state of `generate_spiral_positions` in
`images_to_pdf_v3.py`, lines 81-85: current cell, current direction,
steps per segment, steps taken in the current segment, and number of
turns so far. -/
structure SpState where
  x : ℤ
  y : ℤ
  dx : ℤ
  dy : ℤ
  steps_in_direction : ℕ
  steps_taken : ℕ
  direction_changes : ℕ
deriving DecidableEq

/-- One iteration of the `for` loop of `generate_spiral_positions`
(lines 87-103): move one cell in the current direction; when the current
segment is complete turn 90 degrees counter-clockwise
(`dx, dy = -dy, dx`) and lengthen the segment after every second turn. -/
def spiralStep (s : SpState) : SpState :=
  let x := s.x + s.dx
  let y := s.y + s.dy
  let st := s.steps_taken + 1
  if st = s.steps_in_direction then
    let dc := s.direction_changes + 1
    { x := x, y := y, dx := -s.dy, dy := s.dx,
      steps_in_direction :=
        if dc % 2 = 0 then s.steps_in_direction + 1 else s.steps_in_direction,
      steps_taken := 0, direction_changes := dc }
  else
    { s with x := x, y := y, steps_taken := st }

/-- The initial loop state: at the origin, moving right, one step per
segment (lines 81-85). -/
def spInit : SpState :=
  { x := 0, y := 0, dx := 1, dy := 0,
    steps_in_direction := 1, steps_taken := 0, direction_changes := 0 }

/-- The `for i in range(1, num_images)` loop: run `k` iterations from
state `s`, recording the cell reached after each move. -/
def spiralLoop : ℕ → SpState → List (ℤ × ℤ)
  | 0, _ => []
  | k + 1, s =>
    let s1 := spiralStep s
    (s1.x, s1.y) :: spiralLoop k s1

/-- `generate_spiral_positions` from `images_to_pdf_v3.py`, lines 67-105:
the origin followed by the cells visited by `num_images - 1` loop
iterations (for one image the loop body never runs, which the `n - 1 = 0`
case reproduces). -/
def generate_spiral_positions (num_images : ℕ) : List (ℤ × ℤ) :=
  if num_images = 0 then []
  else (0, 0) :: spiralLoop (num_images - 1) spInit

/-- Iterated loop state: the state after `n` iterations of the loop
body. -/
def spiralIter : ℕ → SpState
  | 0 => spInit
  | n + 1 => spiralStep (spiralIter n)

/-! ### Segment decomposition of the square spiral

The walk consists of straight segments of lengths 1, 1, 2, 2, 3, 3, ...
whose directions cycle right, up, left, down.  `segLen s`, `segDir s` and
`segStart s` are the length, direction and starting cell of segment `s`;
`segOf n` locates iteration `n` inside this decomposition, and `posOf n`
is the cell recorded after iteration `n`. -/

/-- Length of segment `s` of the spiral: `1, 1, 2, 2, 3, 3, ...`. -/
def segLen (s : ℕ) : ℕ := s / 2 + 1

/-- Direction of segment `s`: right, up, left, down, cyclically. -/
def segDir (s : ℕ) : ℤ × ℤ :=
  match s % 4 with
  | 0 => (1, 0)
  | 1 => (0, 1)
  | 2 => (-1, 0)
  | _ => (0, -1)

/-- Cell at which segment `s` begins (the cell reached after all previous
segments). -/
def segStart : ℕ → ℤ × ℤ
  | 0 => (0, 0)
  | s + 1 =>
    ((segStart s).1 + (segLen s : ℤ) * (segDir s).1,
     (segStart s).2 + (segLen s : ℤ) * (segDir s).2)

/-- The segment index and offset (1-based) of loop iteration `n`;
iteration 0 is the initial state `(0, 0)`. -/
def segOf : ℕ → ℕ × ℕ
  | 0 => (0, 0)
  | n + 1 =>
    let st := segOf n
    if st.2 = segLen st.1 then (st.1 + 1, 1) else (st.1, st.2 + 1)

/-- Closed form of the cell the walk occupies after `n` iterations. -/
def posOf (n : ℕ) : ℤ × ℤ :=
  ((segStart (segOf n).1).1 + ((segOf n).2 : ℤ) * (segDir (segOf n).1).1,
   (segStart (segOf n).1).2 + ((segOf n).2 : ℤ) * (segDir (segOf n).1).2)

theorem segOf_le : ∀ n : ℕ, (segOf n).2 ≤ segLen (segOf n).1
  | 0 => by simp [segOf, segLen]
  | n + 1 => by
    have h := segOf_le n
    simp only [segOf]
    split
    · show 1 ≤ segLen ((segOf n).1 + 1)
      simp only [segLen]
      omega
    · show (segOf n).2 + 1 ≤ segLen (segOf n).1
      omega

theorem segOf_pos (n : ℕ) (hn : 1 ≤ n) : 1 ≤ (segOf n).2 := by
  obtain ⟨m, rfl⟩ : ∃ m, n = m + 1 := ⟨n - 1, by omega⟩
  simp only [segOf]
  split <;> omega

theorem segDir_eq0 {s : ℕ} (h : s % 4 = 0) : segDir s = (1, 0) := by
  unfold segDir; rw [h]

theorem segDir_eq1 {s : ℕ} (h : s % 4 = 1) : segDir s = (0, 1) := by
  unfold segDir; rw [h]

theorem segDir_eq2 {s : ℕ} (h : s % 4 = 2) : segDir s = (-1, 0) := by
  unfold segDir; rw [h]

theorem segDir_eq3 {s : ℕ} (h : s % 4 = 3) : segDir s = (0, -1) := by
  unfold segDir; rw [h]

/-- Turning left by 90 degrees maps the direction of segment `s` to that
of segment `s + 1`. -/
theorem segDir_rot (s : ℕ) :
    (segDir (s + 1)).1 = -(segDir s).2 ∧ (segDir (s + 1)).2 = (segDir s).1 := by
  have h4 : s % 4 = 0 ∨ s % 4 = 1 ∨ s % 4 = 2 ∨ s % 4 = 3 := by omega
  rcases h4 with h | h | h | h
  · rw [segDir_eq0 h, segDir_eq1 (by omega)]; exact ⟨rfl, rfl⟩
  · rw [segDir_eq1 h, segDir_eq2 (by omega)]; exact ⟨rfl, rfl⟩
  · rw [segDir_eq2 h, segDir_eq3 (by omega)]; exact ⟨rfl, rfl⟩
  · rw [segDir_eq3 h, segDir_eq0 (by omega)]; exact ⟨rfl, rfl⟩

/-- The segment length grows by one exactly after every even-numbered
turn, matching the `direction_changes % 2 == 0` test of the source. -/
theorem segLen_succ (s : ℕ) :
    segLen (s + 1) = if (s + 1) % 2 = 0 then segLen s + 1 else segLen s := by
  unfold segLen
  split <;> omega

/-- Closed form of the loop state after `n` iterations.  When iteration
`n` completed a segment the turn has already happened (the source turns
inside the same iteration), so the direction, segment length and turn
counter are those of the next segment and `steps_taken` is reset. -/
def stateOf (n : ℕ) : SpState :=
  if (segOf n).2 = segLen (segOf n).1 then
    { x := (posOf n).1, y := (posOf n).2,
      dx := (segDir ((segOf n).1 + 1)).1, dy := (segDir ((segOf n).1 + 1)).2,
      steps_in_direction := segLen ((segOf n).1 + 1), steps_taken := 0,
      direction_changes := (segOf n).1 + 1 }
  else
    { x := (posOf n).1, y := (posOf n).2,
      dx := (segDir (segOf n).1).1, dy := (segDir (segOf n).1).2,
      steps_in_direction := segLen (segOf n).1, steps_taken := (segOf n).2,
      direction_changes := (segOf n).1 }

theorem stateOf_zero : stateOf 0 = spInit := by decide

theorem segOf_succ_turn (n : ℕ) (h : (segOf n).2 = segLen (segOf n).1) :
    segOf (n + 1) = ((segOf n).1 + 1, 1) := by
  simp only [segOf]
  rw [if_pos h]

theorem segOf_succ_move (n : ℕ) (h : ¬ (segOf n).2 = segLen (segOf n).1) :
    segOf (n + 1) = ((segOf n).1, (segOf n).2 + 1) := by
  simp only [segOf]
  rw [if_neg h]

theorem posOf_succ_turn (n : ℕ) (h : (segOf n).2 = segLen (segOf n).1) :
    posOf (n + 1) = ((posOf n).1 + (segDir ((segOf n).1 + 1)).1,
                     (posOf n).2 + (segDir ((segOf n).1 + 1)).2) := by
  unfold posOf
  rw [segOf_succ_turn n h]
  simp only [segStart, Prod.mk.injEq]
  constructor <;> rw [h] <;> push_cast <;> ring

theorem posOf_succ_move (n : ℕ) (h : ¬ (segOf n).2 = segLen (segOf n).1) :
    posOf (n + 1) = ((posOf n).1 + (segDir (segOf n).1).1,
                     (posOf n).2 + (segDir (segOf n).1).2) := by
  unfold posOf
  rw [segOf_succ_move n h]
  simp only [Prod.mk.injEq]
  constructor <;> push_cast <;> ring

/-- One loop iteration of the source advances the closed-form state by
one. -/
theorem stateOf_step (n : ℕ) : spiralStep (stateOf n) = stateOf (n + 1) := by
  by_cases h : (segOf n).2 = segLen (segOf n).1
  · have hpos := posOf_succ_turn n h
    have hseg := segOf_succ_turn n h
    have hrot := segDir_rot ((segOf n).1 + 1)
    have hlen := segLen_succ ((segOf n).1 + 1)
    unfold stateOf
    rw [hseg, if_pos h]
    simp only [spiralStep, Nat.zero_add]
    by_cases h2 : (1 : ℕ) = segLen ((segOf n).1 + 1)
    · rw [if_pos h2,
        if_pos (show (((segOf n).1 + 1, 1) : ℕ × ℕ).2 =
          segLen (((segOf n).1 + 1, 1) : ℕ × ℕ).1 from h2)]
      simp [SpState.mk.injEq, hpos, hrot.1, hrot.2, hlen]
    · rw [if_neg h2,
        if_neg (show ¬ (((segOf n).1 + 1, 1) : ℕ × ℕ).2 =
          segLen (((segOf n).1 + 1, 1) : ℕ × ℕ).1 from h2)]
      simp [SpState.mk.injEq, hpos]
  · have hpos := posOf_succ_move n h
    have hseg := segOf_succ_move n h
    have hrot := segDir_rot (segOf n).1
    have hlen := segLen_succ (segOf n).1
    unfold stateOf
    rw [hseg, if_neg h]
    simp only [spiralStep]
    by_cases h2 : (segOf n).2 + 1 = segLen (segOf n).1
    · rw [if_pos h2,
        if_pos (show (((segOf n).1, (segOf n).2 + 1) : ℕ × ℕ).2 =
          segLen (((segOf n).1, (segOf n).2 + 1) : ℕ × ℕ).1 from h2)]
      simp [SpState.mk.injEq, hpos, hrot.1, hrot.2, hlen]
    · rw [if_neg h2,
        if_neg (show ¬ (((segOf n).1, (segOf n).2 + 1) : ℕ × ℕ).2 =
          segLen (((segOf n).1, (segOf n).2 + 1) : ℕ × ℕ).1 from h2)]
      simp [SpState.mk.injEq, hpos]

theorem spiralIter_eq_stateOf : ∀ n : ℕ, spiralIter n = stateOf n
  | 0 => by rw [stateOf_zero]; rfl
  | n + 1 => by
    show spiralStep (spiralIter n) = stateOf (n + 1)
    rw [spiralIter_eq_stateOf n, stateOf_step]

theorem stateOf_pos (n : ℕ) :
    ((stateOf n).x, (stateOf n).y) = posOf n := by
  unfold stateOf
  split <;> rfl

theorem spiralLoop_eq : ∀ (k n : ℕ),
    spiralLoop k (spiralIter n) = (List.range k).map (fun j => posOf (n + 1 + j))
  | 0, _ => rfl
  | k + 1, n => by
    show ((spiralStep (spiralIter n)).x, (spiralStep (spiralIter n)).y) ::
        spiralLoop k (spiralStep (spiralIter n)) = _
    have hstep : spiralStep (spiralIter n) = spiralIter (n + 1) := rfl
    rw [hstep, spiralLoop_eq k (n + 1), List.range_succ_eq_map, List.map_cons,
      List.map_map]
    congr 1
    · rw [spiralIter_eq_stateOf, stateOf_pos]
    · refine List.map_congr_left fun j hj => ?_
      simp only [Function.comp_apply]
      congr 1
      omega

theorem generate_eq_posOf (N : ℕ) :
    generate_spiral_positions N = (List.range N).map posOf := by
  unfold generate_spiral_positions
  by_cases h0 : N = 0
  · subst h0; simp
  · rw [if_neg h0]
    obtain ⟨M, rfl⟩ : ∃ M, N = M + 1 := ⟨N - 1, by omega⟩
    rw [show (M + 1 - 1) = M from rfl, show spInit = spiralIter 0 from rfl,
      spiralLoop_eq M 0, List.range_succ_eq_map, List.map_cons, List.map_map]
    have hhead : ((0, 0) : ℤ × ℤ) = posOf 0 := by decide
    have htail : List.map (fun j => posOf (0 + 1 + j)) (List.range M) =
        List.map (posOf ∘ Nat.succ) (List.range M) :=
      List.map_congr_left fun j hj => by
        simp only [Function.comp_apply]
        congr 1
        omega
    rw [hhead, htail]

/-! ### Injectivity of the spiral walk -/

theorem segStart_closed : ∀ k : ℕ,
    segStart (4 * k) = (-(k : ℤ), -(k : ℤ)) ∧
    segStart (4 * k + 1) = ((k : ℤ) + 1, -(k : ℤ)) ∧
    segStart (4 * k + 2) = ((k : ℤ) + 1, (k : ℤ) + 1) ∧
    segStart (4 * k + 3) = (-((k : ℤ) + 1), (k : ℤ) + 1)
  | 0 => by decide
  | k + 1 => by
    obtain ⟨h0, h1, h2, h3⟩ := segStart_closed k
    have e0 : 4 * (k + 1) = (4 * k + 3) + 1 := by ring
    have hd3 : segDir (4 * k + 3) = (0, -1) := segDir_eq3 (by omega)
    have hl3 : segLen (4 * k + 3) = 2 * k + 2 := by unfold segLen; omega
    have h4 : segStart (4 * (k + 1)) = (-((k : ℤ) + 1), -((k : ℤ) + 1)) := by
      rw [e0]
      show ((segStart (4 * k + 3)).1 + (segLen (4 * k + 3) : ℤ) * (segDir (4 * k + 3)).1,
        (segStart (4 * k + 3)).2 + (segLen (4 * k + 3) : ℤ) * (segDir (4 * k + 3)).2) = _
      rw [h3, hd3, hl3]
      simp only [Prod.mk.injEq]
      constructor <;> push_cast <;> ring
    have hd4 : segDir (4 * (k + 1)) = (1, 0) := segDir_eq0 (by omega)
    have hl4 : segLen (4 * (k + 1)) = 2 * k + 3 := by unfold segLen; omega
    have h5 : segStart (4 * (k + 1) + 1) = (((k : ℤ) + 1) + 1, -((k : ℤ) + 1)) := by
      show ((segStart (4 * (k + 1))).1 + (segLen (4 * (k + 1)) : ℤ) * (segDir (4 * (k + 1))).1,
        (segStart (4 * (k + 1))).2 + (segLen (4 * (k + 1)) : ℤ) * (segDir (4 * (k + 1))).2) = _
      rw [h4, hd4, hl4]
      simp only [Prod.mk.injEq]
      constructor <;> push_cast <;> ring
    have hd5 : segDir (4 * (k + 1) + 1) = (0, 1) := segDir_eq1 (by omega)
    have hl5 : segLen (4 * (k + 1) + 1) = 2 * k + 3 := by unfold segLen; omega
    have h6 : segStart (4 * (k + 1) + 2) = (((k : ℤ) + 1) + 1, ((k : ℤ) + 1) + 1) := by
      show ((segStart (4 * (k + 1) + 1)).1 + (segLen (4 * (k + 1) + 1) : ℤ) * (segDir (4 * (k + 1) + 1)).1,
        (segStart (4 * (k + 1) + 1)).2 + (segLen (4 * (k + 1) + 1) : ℤ) * (segDir (4 * (k + 1) + 1)).2) = _
      rw [h5, hd5, hl5]
      simp only [Prod.mk.injEq]
      constructor <;> push_cast <;> ring
    have hd6 : segDir (4 * (k + 1) + 2) = (-1, 0) := segDir_eq2 (by omega)
    have hl6 : segLen (4 * (k + 1) + 2) = 2 * k + 4 := by unfold segLen; omega
    have h7 : segStart (4 * (k + 1) + 3) = (-(((k : ℤ) + 1) + 1), ((k : ℤ) + 1) + 1) := by
      show ((segStart (4 * (k + 1) + 2)).1 + (segLen (4 * (k + 1) + 2) : ℤ) * (segDir (4 * (k + 1) + 2)).1,
        (segStart (4 * (k + 1) + 2)).2 + (segLen (4 * (k + 1) + 2) : ℤ) * (segDir (4 * (k + 1) + 2)).2) = _
      rw [h6, hd6, hl6]
      simp only [Prod.mk.injEq]
      constructor <;> push_cast <;> ring
    refine ⟨?_, ?_, ?_, ?_⟩ <;> push_cast
    · exact h4
    · exact h5
    · exact h6
    · exact h7

theorem segStart_val0 {s : ℕ} (h : s % 4 = 0) :
    segStart s = (-((s / 4 : ℕ) : ℤ), -((s / 4 : ℕ) : ℤ)) := by
  obtain ⟨k, rfl⟩ : ∃ k, s = 4 * k := ⟨s / 4, by omega⟩
  rw [show (4 * k) / 4 = k by omega]
  exact (segStart_closed k).1

theorem segStart_val1 {s : ℕ} (h : s % 4 = 1) :
    segStart s = (((s / 4 : ℕ) : ℤ) + 1, -((s / 4 : ℕ) : ℤ)) := by
  obtain ⟨k, rfl⟩ : ∃ k, s = 4 * k + 1 := ⟨s / 4, by omega⟩
  rw [show (4 * k + 1) / 4 = k by omega]
  exact (segStart_closed k).2.1

theorem segStart_val2 {s : ℕ} (h : s % 4 = 2) :
    segStart s = (((s / 4 : ℕ) : ℤ) + 1, ((s / 4 : ℕ) : ℤ) + 1) := by
  obtain ⟨k, rfl⟩ : ∃ k, s = 4 * k + 2 := ⟨s / 4, by omega⟩
  rw [show (4 * k + 2) / 4 = k by omega]
  exact (segStart_closed k).2.2.1

theorem segStart_val3 {s : ℕ} (h : s % 4 = 3) :
    segStart s = (-(((s / 4 : ℕ) : ℤ) + 1), ((s / 4 : ℕ) : ℤ) + 1) := by
  obtain ⟨k, rfl⟩ : ∃ k, s = 4 * k + 3 := ⟨s / 4, by omega⟩
  rw [show (4 * k + 3) / 4 = k by omega]
  exact (segStart_closed k).2.2.2

/-- The cells of the spiral segments are pairwise distinct: segment index
and in-segment offset are recoverable from the cell.  The four segment
families occupy four disjoint wedges of the plane. -/
theorem cell_inj (s t s' t' : ℕ) (ht1 : 1 ≤ t) (ht2 : t ≤ segLen s)
    (ht1' : 1 ≤ t') (ht2' : t' ≤ segLen s')
    (hx : (segStart s).1 + (t : ℤ) * (segDir s).1
        = (segStart s').1 + (t' : ℤ) * (segDir s').1)
    (hy : (segStart s).2 + (t : ℤ) * (segDir s).2
        = (segStart s').2 + (t' : ℤ) * (segDir s').2) :
    s = s' ∧ t = t' := by
  simp only [segLen] at ht2 ht2'
  have h4 : s % 4 = 0 ∨ s % 4 = 1 ∨ s % 4 = 2 ∨ s % 4 = 3 := by omega
  have h4' : s' % 4 = 0 ∨ s' % 4 = 1 ∨ s' % 4 = 2 ∨ s' % 4 = 3 := by omega
  rcases h4 with h | h | h | h <;> rcases h4' with h' | h' | h' | h' <;>
    [rw [segStart_val0 h, segDir_eq0 h, segStart_val0 h', segDir_eq0 h'] at hx hy;
     rw [segStart_val0 h, segDir_eq0 h, segStart_val1 h', segDir_eq1 h'] at hx hy;
     rw [segStart_val0 h, segDir_eq0 h, segStart_val2 h', segDir_eq2 h'] at hx hy;
     rw [segStart_val0 h, segDir_eq0 h, segStart_val3 h', segDir_eq3 h'] at hx hy;
     rw [segStart_val1 h, segDir_eq1 h, segStart_val0 h', segDir_eq0 h'] at hx hy;
     rw [segStart_val1 h, segDir_eq1 h, segStart_val1 h', segDir_eq1 h'] at hx hy;
     rw [segStart_val1 h, segDir_eq1 h, segStart_val2 h', segDir_eq2 h'] at hx hy;
     rw [segStart_val1 h, segDir_eq1 h, segStart_val3 h', segDir_eq3 h'] at hx hy;
     rw [segStart_val2 h, segDir_eq2 h, segStart_val0 h', segDir_eq0 h'] at hx hy;
     rw [segStart_val2 h, segDir_eq2 h, segStart_val1 h', segDir_eq1 h'] at hx hy;
     rw [segStart_val2 h, segDir_eq2 h, segStart_val2 h', segDir_eq2 h'] at hx hy;
     rw [segStart_val2 h, segDir_eq2 h, segStart_val3 h', segDir_eq3 h'] at hx hy;
     rw [segStart_val3 h, segDir_eq3 h, segStart_val0 h', segDir_eq0 h'] at hx hy;
     rw [segStart_val3 h, segDir_eq3 h, segStart_val1 h', segDir_eq1 h'] at hx hy;
     rw [segStart_val3 h, segDir_eq3 h, segStart_val2 h', segDir_eq2 h'] at hx hy;
     rw [segStart_val3 h, segDir_eq3 h, segStart_val3 h', segDir_eq3 h'] at hx hy] <;>
    dsimp only at hx hy <;> omega

theorem segOf_lt (n m : ℕ) (h : n < m) :
    (segOf n).1 < (segOf m).1 ∨
      ((segOf n).1 = (segOf m).1 ∧ (segOf n).2 < (segOf m).2) := by
  induction m with
  | zero => omega
  | succ m ih =>
    rcases Nat.lt_succ_iff_lt_or_eq.mp h with hlt | heq
    · have hrec := ih hlt
      by_cases hm : (segOf m).2 = segLen (segOf m).1
      · rw [segOf_succ_turn m hm]
        dsimp only
        omega
      · rw [segOf_succ_move m hm]
        dsimp only
        omega
    · subst heq
      by_cases hm : (segOf n).2 = segLen (segOf n).1
      · rw [segOf_succ_turn n hm]
        dsimp only
        omega
      · rw [segOf_succ_move n hm]
        dsimp only
        omega

theorem segOf_inj {n m : ℕ} (h : segOf n = segOf m) : n = m := by
  rcases Nat.lt_trichotomy n m with hlt | heq | hlt
  · have := segOf_lt n m hlt
    rw [h] at this
    omega
  · exact heq
  · have := segOf_lt m n hlt
    rw [h] at this
    omega

theorem posOf_ne_zero (n : ℕ) (hn : 1 ≤ n) : posOf n ≠ (0, 0) := by
  intro hcon
  unfold posOf at hcon
  rw [Prod.mk.injEq] at hcon
  obtain ⟨hx, hy⟩ := hcon
  have ht1 := segOf_pos n hn
  have ht2 := segOf_le n
  simp only [segLen] at ht2
  have h4 : (segOf n).1 % 4 = 0 ∨ (segOf n).1 % 4 = 1 ∨
      (segOf n).1 % 4 = 2 ∨ (segOf n).1 % 4 = 3 := by omega
  rcases h4 with h | h | h | h <;>
    [rw [segStart_val0 h, segDir_eq0 h] at hx hy;
     rw [segStart_val1 h, segDir_eq1 h] at hx hy;
     rw [segStart_val2 h, segDir_eq2 h] at hx hy;
     rw [segStart_val3 h, segDir_eq3 h] at hx hy] <;>
    dsimp only at hx hy <;> omega

theorem posOf_injective : Function.Injective posOf := by
  intro n m h
  rcases Nat.eq_zero_or_pos n with hn | hn
  · rcases Nat.eq_zero_or_pos m with hm | hm
    · omega
    · subst hn
      exact absurd (h.symm.trans (by decide)) (posOf_ne_zero m hm)
  · rcases Nat.eq_zero_or_pos m with hm | hm
    · subst hm
      exact absurd (h.trans (by decide)) (posOf_ne_zero n hn)
    · unfold posOf at h
      rw [Prod.mk.injEq] at h
      obtain ⟨hs, ht⟩ := cell_inj _ _ _ _ (segOf_pos n hn) (segOf_le n)
        (segOf_pos m hm) (segOf_le m) h.1 h.2
      exact segOf_inj (Prod.ext hs ht)

theorem generate_length (N : ℕ) : (generate_spiral_positions N).length = N := by
  rw [generate_eq_posOf]
  simp

theorem generate_nodup (N : ℕ) : (generate_spiral_positions N).Nodup := by
  rw [generate_eq_posOf]
  exact List.Nodup.map posOf_injective (List.nodup_range N)

theorem segDir_unit (s : ℕ) : (segDir s).1.natAbs + (segDir s).2.natAbs = 1 := by
  have h4 : s % 4 = 0 ∨ s % 4 = 1 ∨ s % 4 = 2 ∨ s % 4 = 3 := by omega
  rcases h4 with h | h | h | h <;>
    [rw [segDir_eq0 h]; rw [segDir_eq1 h]; rw [segDir_eq2 h]; rw [segDir_eq3 h]] <;>
    rfl

theorem posOf_step_adjacent (n : ℕ) :
    ((posOf (n + 1)).1 - (posOf n).1).natAbs +
      ((posOf (n + 1)).2 - (posOf n).2).natAbs = 1 := by
  by_cases h : (segOf n).2 = segLen (segOf n).1
  · rw [posOf_succ_turn n h]
    dsimp only
    have := segDir_unit ((segOf n).1 + 1)
    omega
  · rw [posOf_succ_move n h]
    dsimp only
    have := segDir_unit (segOf n).1
    omega

theorem generate_chain (N : ℕ) :
    (generate_spiral_positions N).Chain'
      (fun p q => (q.1 - p.1).natAbs + (q.2 - p.2).natAbs = 1) := by
  rw [generate_eq_posOf]
  rw [List.chain'_map]
  match N with
  | 0 => simp
  | N + 1 =>
    rw [List.chain'_range_succ]
    intro m hm
    exact posOf_step_adjacent m

/-! ### Spiral cell geometry (`calculate_spiral_dimensions` and
`arrange_all_images_on_single_page` of v3) -/

/-- `min(pos[0] for pos in positions)`: the fold Python's `min` performs
over a nonempty sequence (0 for the empty list, which the source never
queries). -/
def minX : List (ℤ × ℤ) → ℤ
  | [] => 0
  | p :: rest => rest.foldl (fun m q => min m q.1) p.1

/-- `max(pos[0] for pos in positions)`. -/
def maxX : List (ℤ × ℤ) → ℤ
  | [] => 0
  | p :: rest => rest.foldl (fun m q => max m q.1) p.1

/-- `min(pos[1] for pos in positions)`. -/
def minY : List (ℤ × ℤ) → ℤ
  | [] => 0
  | p :: rest => rest.foldl (fun m q => min m q.2) p.2

/-- `max(pos[1] for pos in positions)`. -/
def maxY : List (ℤ × ℤ) → ℤ
  | [] => 0
  | p :: rest => rest.foldl (fun m q => max m q.2) p.2

/-- `calculate_spiral_dimensions` from `images_to_pdf_v3.py`, lines
107-132: bounding box of the first `num_images` spiral coordinates, cell
size `min (available_width / grid_width) (available_height / grid_height)`
(Python returns the pair `0, 0` for zero images; the positions component
is the empty list here, a path the callers never take). -/
def calculate_spiral_dimensions (num_images : ℕ)
    (available_width available_height : ℚ) : ℚ × List (ℤ × ℤ) :=
  if num_images = 0 then (0, [])
  else
    let positions := generate_spiral_positions num_images
    let grid_width : ℤ := maxX positions - minX positions + 1
    let grid_height : ℤ := maxY positions - minY positions + 1
    let cell_width := available_width / (grid_width : ℚ)
    let cell_height := available_height / (grid_height : ℚ)
    (min cell_width cell_height, positions)

/-- The `for i, img_path in enumerate(image_files)` loop of v3's
`arrange_all_images_on_single_page` (lines 160-189): image `i` occupies
the square cell of side `cell_size` at spiral coordinate `positions[i]`
shifted by the centering offset, scaled to fit the cell and centered in
it; probe failures are dropped, and the loop stops if `i` reaches
`len(positions)` (unreachable for the actual argument). -/
def arrangeAux (positions : List (ℤ × ℤ)) (cell_size offset_x offset_y : ℚ) :
    ℕ → List ImageFile → List Placement
  | _, [] => []
  | i, img :: rest =>
    if positions.length ≤ i then []
    else
      let p := positions.getD i (0, 0)
      let x := offset_x + (p.1 : ℚ) * cell_size
      let y := offset_y + (p.2 : ℚ) * cell_size
      match calculate_image_dimensions img cell_size cell_size with
      | none => arrangeAux positions cell_size offset_x offset_y (i + 1) rest
      | some (w, h, s) =>
        { idx := i,
          x := (x + cell_size / 2) - w / 2,
          y := (y + cell_size / 2) - h / 2,
          width := w, height := h, scale := s } ::
          arrangeAux positions cell_size offset_x offset_y (i + 1) rest

/-- `arrange_all_images_on_single_page` from `images_to_pdf_v3.py`,
lines 134-191. -/
def arrange_all_images_on_single_page (image_files : List ImageFile)
    (available_width available_height : ℚ) : List Placement :=
  if image_files.length = 0 then []
  else
    let cp := calculate_spiral_dimensions image_files.length
      available_width available_height
    let cell_size := cp.1
    let positions := cp.2
    let mnx := minX positions
    let mxx := maxX positions
    let mny := minY positions
    let mxy := maxY positions
    let spiral_width := ((mxx - mnx + 1 : ℤ) : ℚ) * cell_size
    let spiral_height := ((mxy - mny + 1 : ℤ) : ℚ) * cell_size
    let offset_x := (available_width - spiral_width) / 2 - (mnx : ℚ) * cell_size
    let offset_y := (available_height - spiral_height) / 2 - (mny : ℚ) * cell_size
    arrangeAux positions cell_size offset_x offset_y 0 image_files

theorem foldl_min_le_init (f : ℤ × ℤ → ℤ) :
    ∀ (l : List (ℤ × ℤ)) (a : ℤ), l.foldl (fun m q => min m (f q)) a ≤ a
  | [], a => le_refl a
  | p :: rest, a =>
    le_trans (foldl_min_le_init f rest (min a (f p))) (min_le_left _ _)

theorem foldl_min_le_mem (f : ℤ × ℤ → ℤ) :
    ∀ (l : List (ℤ × ℤ)) (a : ℤ) (p : ℤ × ℤ), p ∈ l →
      l.foldl (fun m q => min m (f q)) a ≤ f p
  | [], _, _, hp => absurd hp (List.not_mem_nil _)
  | q :: rest, a, p, hp => by
    rcases List.mem_cons.mp hp with rfl | hmem
    · exact le_trans (foldl_min_le_init f rest (min a (f p))) (min_le_right _ _)
    · exact foldl_min_le_mem f rest (min a (f q)) p hmem

theorem init_le_foldl_max (f : ℤ × ℤ → ℤ) :
    ∀ (l : List (ℤ × ℤ)) (a : ℤ), a ≤ l.foldl (fun m q => max m (f q)) a
  | [], a => le_refl a
  | p :: rest, a =>
    le_trans (le_max_left _ _) (init_le_foldl_max f rest (max a (f p)))

theorem mem_le_foldl_max (f : ℤ × ℤ → ℤ) :
    ∀ (l : List (ℤ × ℤ)) (a : ℤ) (p : ℤ × ℤ), p ∈ l →
      f p ≤ l.foldl (fun m q => max m (f q)) a
  | [], _, _, hp => absurd hp (List.not_mem_nil _)
  | q :: rest, a, p, hp => by
    rcases List.mem_cons.mp hp with rfl | hmem
    · exact le_trans (le_max_right _ _) (init_le_foldl_max f rest (max a (f p)))
    · exact mem_le_foldl_max f rest (max a (f q)) p hmem

theorem minX_le_mem {l : List (ℤ × ℤ)} {p : ℤ × ℤ} (hp : p ∈ l) : minX l ≤ p.1 := by
  match l with
  | [] => cases hp
  | q :: rest =>
    rcases List.mem_cons.mp hp with rfl | hmem
    · exact foldl_min_le_init (fun r => r.1) rest p.1
    · exact foldl_min_le_mem (fun r => r.1) rest q.1 p hmem

theorem mem_le_maxX {l : List (ℤ × ℤ)} {p : ℤ × ℤ} (hp : p ∈ l) : p.1 ≤ maxX l := by
  match l with
  | [] => cases hp
  | q :: rest =>
    rcases List.mem_cons.mp hp with rfl | hmem
    · exact init_le_foldl_max (fun r => r.1) rest p.1
    · exact mem_le_foldl_max (fun r => r.1) rest q.1 p hmem

theorem minY_le_mem {l : List (ℤ × ℤ)} {p : ℤ × ℤ} (hp : p ∈ l) : minY l ≤ p.2 := by
  match l with
  | [] => cases hp
  | q :: rest =>
    rcases List.mem_cons.mp hp with rfl | hmem
    · exact foldl_min_le_init (fun r => r.2) rest p.2
    · exact foldl_min_le_mem (fun r => r.2) rest q.2 p hmem

theorem mem_le_maxY {l : List (ℤ × ℤ)} {p : ℤ × ℤ} (hp : p ∈ l) : p.2 ≤ maxY l := by
  match l with
  | [] => cases hp
  | q :: rest =>
    rcases List.mem_cons.mp hp with rfl | hmem
    · exact init_le_foldl_max (fun r => r.2) rest p.2
    · exact mem_le_foldl_max (fun r => r.2) rest q.2 p hmem

/-- The bounding box of the first `N` spiral coordinates has area at least
`N`: `N` pairwise distinct lattice points lie inside it. -/
theorem bbox_area (N : ℕ) (hN : 1 ≤ N) :
    (N : ℤ) ≤ (maxX (generate_spiral_positions N) - minX (generate_spiral_positions N) + 1) *
      (maxY (generate_spiral_positions N) - minY (generate_spiral_positions N) + 1) := by
  set l := generate_spiral_positions N with hl
  have hlen : l.length = N := generate_length N
  have hnd : l.Nodup := generate_nodup N
  have hsub : l.toFinset ⊆
      Finset.Icc (minX l) (maxX l) ×ˢ Finset.Icc (minY l) (maxY l) := by
    intro p hp
    rw [List.mem_toFinset] at hp
    rw [Finset.mem_product, Finset.mem_Icc, Finset.mem_Icc]
    exact ⟨⟨minX_le_mem hp, mem_le_maxX hp⟩, ⟨minY_le_mem hp, mem_le_maxY hp⟩⟩
  have hcard := Finset.card_le_card hsub
  rw [List.toFinset_card_of_nodup hnd, hlen, Finset.card_product,
    Int.card_Icc, Int.card_Icc] at hcard
  obtain ⟨p, hp⟩ : ∃ p, p ∈ l := by
    match hll : l with
    | [] => simp at hlen; omega
    | q :: rest => exact ⟨q, List.mem_cons_self q rest⟩
  have h1 : minX l ≤ maxX l := le_trans (minX_le_mem hp) (mem_le_maxX hp)
  have h2 : minY l ≤ maxY l := le_trans (minY_le_mem hp) (mem_le_maxY hp)
  have hcast := Int.ofNat_le.mpr hcard
  push_cast at hcast
  rw [Int.toNat_of_nonneg (by omega), Int.toNat_of_nonneg (by omega)] at hcast
  calc (N : ℤ) ≤ (maxX l + 1 - minX l) * (maxY l + 1 - minY l) := hcast
  _ = (maxX l - minX l + 1) * (maxY l - minY l + 1) := by ring

/-- Width of the spiral's bounding box in cells (`grid_width`, line
122 of v3). -/
def gridW (N : ℕ) : ℤ :=
  maxX (generate_spiral_positions N) - minX (generate_spiral_positions N) + 1

/-- Height of the spiral's bounding box in cells (`grid_height`,
line 123 of v3). -/
def gridH (N : ℕ) : ℤ :=
  maxY (generate_spiral_positions N) - minY (generate_spiral_positions N) + 1

/-- The uniform cell size of v3's spiral layout (`cell_size`, line 130). -/
def cellSize (N : ℕ) (aw ah : ℚ) : ℚ :=
  min (aw / (gridW N : ℚ)) (ah / (gridH N : ℚ))

/-- The `offset_x` centering shift of v3 (line 155). -/
def offsetX (N : ℕ) (aw ah : ℚ) : ℚ :=
  (aw - (gridW N : ℚ) * cellSize N aw ah) / 2 -
    ((minX (generate_spiral_positions N)) : ℚ) * cellSize N aw ah

/-- The `offset_y` centering shift of v3 (line 156). -/
def offsetY (N : ℕ) (aw ah : ℚ) : ℚ :=
  (ah - (gridH N : ℚ) * cellSize N aw ah) / 2 -
    ((minY (generate_spiral_positions N)) : ℚ) * cellSize N aw ah

theorem calculate_spiral_dimensions_eq (N : ℕ) (hN : 1 ≤ N) (aw ah : ℚ) :
    calculate_spiral_dimensions N aw ah =
      (cellSize N aw ah, generate_spiral_positions N) := by
  unfold calculate_spiral_dimensions cellSize gridW gridH
  rw [if_neg (by omega)]

theorem arrange_all_eq_sp (image_files : List ImageFile) (aw ah : ℚ)
    (hN : 1 ≤ image_files.length) :
    arrange_all_images_on_single_page image_files aw ah =
      arrangeAux (generate_spiral_positions image_files.length)
        (cellSize image_files.length aw ah)
        (offsetX image_files.length aw ah)
        (offsetY image_files.length aw ah) 0 image_files := by
  unfold arrange_all_images_on_single_page
  rw [if_neg (by omega), calculate_spiral_dimensions_eq _ hN]
  rfl

theorem arrangeAux_mem_sp {positions : List (ℤ × ℤ)} {cs ox oy : ℚ} :
    ∀ (l : List ImageFile) (k : ℕ) (p : Placement),
      p ∈ arrangeAux positions cs ox oy k l →
      k ≤ p.idx ∧ p.idx - k < l.length ∧ p.idx < positions.length ∧
      calculate_image_dimensions (l.getD (p.idx - k) none) cs cs
        = some (p.width, p.height, p.scale) ∧
      p.x = (ox + ((positions.getD p.idx (0, 0)).1 : ℚ) * cs) + cs / 2 - p.width / 2 ∧
      p.y = (oy + ((positions.getD p.idx (0, 0)).2 : ℚ) * cs) + cs / 2 - p.height / 2
  | [], k, p, hp => by simp [arrangeAux] at hp
  | img :: rest, k, p, hp => by
    simp only [arrangeAux] at hp
    by_cases hguard : positions.length ≤ k
    · rw [if_pos hguard] at hp
      simp at hp
    · rw [if_neg hguard] at hp
      cases hcalc : calculate_image_dimensions img cs cs with
      | none =>
        rw [hcalc] at hp
        obtain ⟨h1, h2, h3, h4, h5, h6⟩ := arrangeAux_mem_sp rest (k + 1) p hp
        refine ⟨by omega, by simp; omega, h3, ?_, h5, h6⟩
        have : p.idx - k = (p.idx - (k + 1)) + 1 := by omega
        rw [this, List.getD_cons_succ]
        exact h4
      | some whs =>
        obtain ⟨w, h, s⟩ := whs
        rw [hcalc] at hp
        rcases List.mem_cons.mp hp with hhead | htail
        · subst hhead
          refine ⟨le_refl _, by simp, by dsimp only; omega, ?_, rfl, rfl⟩
          simp only [Nat.sub_self, List.getD_cons_zero]
          exact hcalc
        · obtain ⟨h1, h2, h3, h4, h5, h6⟩ := arrangeAux_mem_sp rest (k + 1) p htail
          refine ⟨by omega, by simp; omega, h3, ?_, h5, h6⟩
          have : p.idx - k = (p.idx - (k + 1)) + 1 := by omega
          rw [this, List.getD_cons_succ]
          exact h4

theorem arrangeAux_pairwise_idx_sp {positions : List (ℤ × ℤ)} {cs ox oy : ℚ} :
    ∀ (l : List ImageFile) (k : ℕ),
      (arrangeAux positions cs ox oy k l).Pairwise (fun p q => p.idx < q.idx)
  | [], k => by simp [arrangeAux]
  | img :: rest, k => by
    simp only [arrangeAux]
    by_cases hguard : positions.length ≤ k
    · rw [if_pos hguard]
      simp
    · rw [if_neg hguard]
      cases hcalc : calculate_image_dimensions img cs cs with
      | none => exact arrangeAux_pairwise_idx_sp rest (k + 1)
      | some whs =>
        obtain ⟨w, h, s⟩ := whs
        refine List.Pairwise.cons ?_ (arrangeAux_pairwise_idx_sp rest (k + 1))
        intro q hq
        have := (arrangeAux_mem_sp rest (k + 1) q hq).1
        simpa using by omega

/-- The lower-left x of spiral cell `i` (line 167 of v3). -/
def cellX (positions : List (ℤ × ℤ)) (ox cs : ℚ) (i : ℕ) : ℚ :=
  ox + ((positions.getD i (0, 0)).1 : ℚ) * cs

/-- The lower-left y of spiral cell `i` (line 168 of v3). -/
def cellY (positions : List (ℤ × ℤ)) (oy cs : ℚ) (i : ℕ) : ℚ :=
  oy + ((positions.getD i (0, 0)).2 : ℚ) * cs

theorem placement_in_cell_sp {positions : List (ℤ × ℤ)} {cs ox oy : ℚ}
    {l : List ImageFile} {k : ℕ} {p : Placement}
    (hp : p ∈ arrangeAux positions cs ox oy k l) :
    cellX positions ox cs p.idx ≤ p.x ∧
    p.x + p.width ≤ cellX positions ox cs p.idx + cs ∧
    cellY positions oy cs p.idx ≤ p.y ∧
    p.y + p.height ≤ cellY positions oy cs p.idx + cs := by
  obtain ⟨-, -, -, hcalc, hx, hy⟩ := arrangeAux_mem_sp _ _ _ hp
  obtain ⟨d, -, -, -, -, -, -, hwle, hhle, -⟩ := calc_dims_shape hcalc
  unfold cellX cellY
  refine ⟨?_, ?_, ?_, ?_⟩ <;> [rw [hx]; rw [hx]; rw [hy]; rw [hy]] <;> linarith

theorem no_overlap_sp {positions : List (ℤ × ℤ)} {cs ox oy : ℚ}
    {l : List ImageFile} {k : ℕ} {p q : Placement}
    (hnd : positions.Nodup)
    (hp : p ∈ arrangeAux positions cs ox oy k l)
    (hq : q ∈ arrangeAux positions cs ox oy k l)
    (hne : p.idx ≠ q.idx) : ¬ overlaps p q := by
  intro hov
  obtain ⟨hpw, hqw, hph, hqh⟩ := overlaps_pos hov
  obtain ⟨-, -, hpi, hcalcp, -, -⟩ := arrangeAux_mem_sp _ _ _ hp
  obtain ⟨-, -, hqi, hcalcq, -, -⟩ := arrangeAux_mem_sp _ _ _ hq
  obtain ⟨hcs, -, -⟩ := calc_pos_box hcalcp hpw
  obtain ⟨hpx1, hpx2, hpy1, hpy2⟩ := placement_in_cell_sp hp
  obtain ⟨hqx1, hqx2, hqy1, hqy2⟩ := placement_in_cell_sp hq
  have hpos_ne : positions.getD p.idx (0, 0) ≠ positions.getD q.idx (0, 0) := by
    intro hcon
    rw [List.getD_eq_getElem positions ((0 : ℤ), (0 : ℤ)) hpi,
      List.getD_eq_getElem positions ((0 : ℤ), (0 : ℤ)) hqi] at hcon
    exact hne ((hnd.getElem_inj_iff).mp hcon)
  have hpxq : p.x < q.x + q.width :=
    lt_of_le_of_lt (le_max_left _ _) (hov.1.trans_le (min_le_right _ _))
  have hqxp : q.x < p.x + p.width :=
    lt_of_le_of_lt (le_max_right _ _) (hov.1.trans_le (min_le_left _ _))
  have hpyq : p.y < q.y + q.height :=
    lt_of_le_of_lt (le_max_left _ _) (hov.2.trans_le (min_le_right _ _))
  have hqyp : q.y < p.y + p.height :=
    lt_of_le_of_lt (le_max_right _ _) (hov.2.trans_le (min_le_left _ _))
  set Pp := positions.getD p.idx (0, 0) with hPp
  set Pq := positions.getD q.idx (0, 0) with hPq
  have hcases : Pp.1 ≠ Pq.1 ∨ Pp.2 ≠ Pq.2 := by
    by_contra hcon
    push_neg at hcon
    exact hpos_ne (Prod.ext hcon.1 hcon.2)
  simp only [cellX, cellY] at hpx1 hpx2 hpy1 hpy2 hqx1 hqx2 hqy1 hqy2
  rcases hcases with hxne | hyne
  · rcases lt_or_gt_of_ne hxne with hlt | hlt
    · have hcast : (Pp.1 : ℚ) + 1 ≤ (Pq.1 : ℚ) := by exact_mod_cast hlt
      have hmul : cs * 1 ≤ cs * ((Pq.1 : ℚ) - (Pp.1 : ℚ)) :=
        mul_le_mul_of_nonneg_left (by linarith) hcs.le
      linarith [hmul, hpx2, hqx1, hqxp]
    · have hcast : (Pq.1 : ℚ) + 1 ≤ (Pp.1 : ℚ) := by exact_mod_cast hlt
      have hmul : cs * 1 ≤ cs * ((Pp.1 : ℚ) - (Pq.1 : ℚ)) :=
        mul_le_mul_of_nonneg_left (by linarith) hcs.le
      linarith [hmul, hqx2, hpx1, hpxq]
  · rcases lt_or_gt_of_ne hyne with hlt | hlt
    · have hcast : (Pp.2 : ℚ) + 1 ≤ (Pq.2 : ℚ) := by exact_mod_cast hlt
      have hmul : cs * 1 ≤ cs * ((Pq.2 : ℚ) - (Pp.2 : ℚ)) :=
        mul_le_mul_of_nonneg_left (by linarith) hcs.le
      linarith [hmul, hpy2, hqy1, hqyp]
    · have hcast : (Pq.2 : ℚ) + 1 ≤ (Pp.2 : ℚ) := by exact_mod_cast hlt
      have hmul : cs * 1 ≤ cs * ((Pp.2 : ℚ) - (Pq.2 : ℚ)) :=
        mul_le_mul_of_nonneg_left (by linarith) hcs.le
      linarith [hmul, hqy2, hpy1, hpyq]

end V3

/-- Claim C3: for every `N ≥ 1`, the spiral position generator returns
exactly `N` integer coordinates following the classic square-spiral walk
(first cell `(0, 0)`, then the iterated `spiralStep` walk, which moves in
the current direction, turns 90 degrees counter-clockwise at the end of
each segment and lengthens the segment after every second turn); the `N`
coordinates are pairwise distinct, each consecutive pair is grid-adjacent,
and the bounding-box area of the `N` coordinates is at least `N`. -/
theorem claim_C3 (N : ℕ) (hN : 1 ≤ N) :
    (V3.generate_spiral_positions N).length = N ∧
    (V3.generate_spiral_positions N).head? = some (0, 0) ∧
    (V3.generate_spiral_positions N).Chain'
      (fun p q => (q.1 - p.1).natAbs + (q.2 - p.2).natAbs = 1) ∧
    (V3.generate_spiral_positions N).Nodup ∧
    (N : ℤ) ≤ (V3.maxX (V3.generate_spiral_positions N) -
        V3.minX (V3.generate_spiral_positions N) + 1) *
      (V3.maxY (V3.generate_spiral_positions N) -
        V3.minY (V3.generate_spiral_positions N) + 1) := by
  refine ⟨V3.generate_length N, ?_, V3.generate_chain N, V3.generate_nodup N,
    V3.bbox_area N hN⟩
  unfold V3.generate_spiral_positions
  rw [if_neg (by omega)]
  rfl

/-- Witness for C3: the theorem applied at the concrete count 9 (a full
3x3 ring). -/
theorem claim_C3_witness :
    1 ≤ 9 ∧ (V3.generate_spiral_positions 9).length = 9 ∧
      (V3.generate_spiral_positions 9).Nodup :=
  ⟨by decide, (claim_C3 9 (by decide)).1, (claim_C3 9 (by decide)).2.2.2.1⟩

/-- Claim C7: in spiral layout with `N ≥ 1` images, the cell size is the
single uniform value `min (availableWidth / gridWidth)
(availableHeight / gridHeight)` where `gridWidth` and `gridHeight` are the
bounding-box extents of the first `N` spiral coordinates; every cell is a
square of that size placed at its spiral coordinate; the whole spiral is
offset so it is centered in the canvas (equal slack on both sides of the
bounding box); and each image is scaled to fit its square cell preserving
aspect ratio and centered within it. -/
theorem claim_C7 (image_files : List ImageFile) (aw ah : ℚ)
    (hN : 1 ≤ image_files.length) :
    (V3.calculate_spiral_dimensions image_files.length aw ah).1 =
      min (aw / (V3.gridW image_files.length : ℚ))
          (ah / (V3.gridH image_files.length : ℚ)) ∧
    (V3.calculate_spiral_dimensions image_files.length aw ah).2 =
      V3.generate_spiral_positions image_files.length ∧
    (V3.offsetX image_files.length aw ah +
        ((V3.minX (V3.generate_spiral_positions image_files.length)) : ℚ) *
          V3.cellSize image_files.length aw ah) =
      (aw - (V3.gridW image_files.length : ℚ) *
        V3.cellSize image_files.length aw ah) / 2 ∧
    aw - (V3.offsetX image_files.length aw ah +
        ((V3.maxX (V3.generate_spiral_positions image_files.length) + 1 : ℤ) : ℚ) *
          V3.cellSize image_files.length aw ah) =
      (aw - (V3.gridW image_files.length : ℚ) *
        V3.cellSize image_files.length aw ah) / 2 ∧
    (V3.offsetY image_files.length aw ah +
        ((V3.minY (V3.generate_spiral_positions image_files.length)) : ℚ) *
          V3.cellSize image_files.length aw ah) =
      (ah - (V3.gridH image_files.length : ℚ) *
        V3.cellSize image_files.length aw ah) / 2 ∧
    ah - (V3.offsetY image_files.length aw ah +
        ((V3.maxY (V3.generate_spiral_positions image_files.length) + 1 : ℤ) : ℚ) *
          V3.cellSize image_files.length aw ah) =
      (ah - (V3.gridH image_files.length : ℚ) *
        V3.cellSize image_files.length aw ah) / 2 ∧
    ∀ p ∈ V3.arrange_all_images_on_single_page image_files aw ah,
      p.idx < image_files.length ∧
      p.x + p.width / 2 =
        V3.cellX (V3.generate_spiral_positions image_files.length)
          (V3.offsetX image_files.length aw ah)
          (V3.cellSize image_files.length aw ah) p.idx +
        V3.cellSize image_files.length aw ah / 2 ∧
      p.y + p.height / 2 =
        V3.cellY (V3.generate_spiral_positions image_files.length)
          (V3.offsetY image_files.length aw ah)
          (V3.cellSize image_files.length aw ah) p.idx +
        V3.cellSize image_files.length aw ah / 2 ∧
      V3.cellX (V3.generate_spiral_positions image_files.length)
          (V3.offsetX image_files.length aw ah)
          (V3.cellSize image_files.length aw ah) p.idx ≤ p.x ∧
      p.x + p.width ≤
        V3.cellX (V3.generate_spiral_positions image_files.length)
          (V3.offsetX image_files.length aw ah)
          (V3.cellSize image_files.length aw ah) p.idx +
        V3.cellSize image_files.length aw ah ∧
      V3.cellY (V3.generate_spiral_positions image_files.length)
          (V3.offsetY image_files.length aw ah)
          (V3.cellSize image_files.length aw ah) p.idx ≤ p.y ∧
      p.y + p.height ≤
        V3.cellY (V3.generate_spiral_positions image_files.length)
          (V3.offsetY image_files.length aw ah)
          (V3.cellSize image_files.length aw ah) p.idx +
        V3.cellSize image_files.length aw ah ∧
      p.width ≤ V3.cellSize image_files.length aw ah ∧
      p.height ≤ V3.cellSize image_files.length aw ah ∧
      (p.width = V3.cellSize image_files.length aw ah ∨
        p.height = V3.cellSize image_files.length aw ah) ∧
      ∃ d : ImageDims, image_files.getD p.idx none = some d ∧
        p.width * (d.h : ℚ) = p.height * (d.w : ℚ) := by
  have hgw : ((V3.gridW image_files.length : ℤ) : ℚ) =
      ((V3.maxX (V3.generate_spiral_positions image_files.length) : ℤ) : ℚ) -
      ((V3.minX (V3.generate_spiral_positions image_files.length) : ℤ) : ℚ) + 1 := by
    unfold V3.gridW; push_cast; ring
  have hgh : ((V3.gridH image_files.length : ℤ) : ℚ) =
      ((V3.maxY (V3.generate_spiral_positions image_files.length) : ℤ) : ℚ) -
      ((V3.minY (V3.generate_spiral_positions image_files.length) : ℤ) : ℚ) + 1 := by
    unfold V3.gridH; push_cast; ring
  refine ⟨?_, ?_, ?_, ?_, ?_, ?_, ?_⟩
  · rw [V3.calculate_spiral_dimensions_eq _ hN]
    rfl
  · rw [V3.calculate_spiral_dimensions_eq _ hN]
  · unfold V3.offsetX; ring
  · unfold V3.offsetX
    push_cast [hgw]
    ring
  · unfold V3.offsetY; ring
  · unfold V3.offsetY
    push_cast [hgh]
    ring
  · intro p hp
    rw [V3.arrange_all_eq_sp image_files aw ah hN] at hp
    have hmem := V3.arrangeAux_mem_sp _ _ _ hp
    obtain ⟨-, -, hpi, hcalc, hx, hy⟩ := hmem
    obtain ⟨hc1, hc2, hc3, hc4⟩ := V3.placement_in_cell_sp hp
    obtain ⟨d, hd, -, -, -, -, hAR, hwle, hhle, hmax⟩ := calc_dims_shape hcalc
    rw [V3.generate_length] at hpi
    simp only [Nat.sub_zero] at hcalc hd
    refine ⟨hpi, ?_, ?_, hc1, hc2, hc3, hc4, hwle, hhle, hmax, d, hd, hAR⟩
    · rw [hx]; unfold V3.cellX; ring
    · rw [hy]; unfold V3.cellY; ring

/-- Witness for C7: a concrete one-image run (image 1x2 on a 100x50
canvas): the single spiral cell is the 50-point square and the image is
scaled to 25x50 and centered in it. -/
theorem claim_C7_witness :
    1 ≤ ([some ⟨1, 2⟩] : List ImageFile).length ∧
    (V3.calculate_spiral_dimensions ([some ⟨1, 2⟩] : List ImageFile).length 100 50).1 =
      min ((100 : ℚ) / (V3.gridW 1 : ℚ)) ((50 : ℚ) / (V3.gridH 1 : ℚ)) :=
  ⟨by decide, (claim_C7 [some ⟨1, 2⟩] 100 50 (by decide)).1⟩

/-! ## Flow layout (`images_to_pdf_v1.py`) -/

/-- Result of one `create_pdf_from_images` run: either the early return
for an empty input list (`"No image files found."`, no canvas is created
and no drawing happens) or the pages that were drawn. -/
inductive PdfResult where
  | noImages
  | created (pages : List (List Placement))
deriving DecidableEq

/-- The pages a run drew: none at all for the no-images short circuit. -/
def PdfResult.pages : PdfResult → List (List Placement)
  | noImages => []
  | created ps => ps

/-- The guard of `main` in all three sources: a missing folder raises
`FileNotFoundError`, caught at top level with exit code 1; a folder with
no supported images prints a message and returns (exit code 0) before the
engine is invoked; otherwise the engine runs.  The first component is the
process exit code, the second is the engine result when the engine ran. -/
def mainShortCircuit (create : List ImageFile → PdfResult)
    (folder : Option (List ImageFile)) : ℕ × Option PdfResult :=
  match folder with
  | none => (1, none)
  | some image_files =>
    if image_files = [] then (0, none)
    else (0, some (create image_files))

namespace V1

/-- One entry of a `row_images` list in `arrange_images_on_page` of v1
(lines 97-102): the image (by input index) with its computed size and
scale. -/
structure RowImg where
  idx : ℕ
  width : ℚ
  height : ℚ
  scale : ℚ
deriving DecidableEq

/-- The image list paired with absolute input indices starting at `k`,
the view of `image_files[current_idx:]` that the index-based loops of v1
walk. -/
def enumFromIdx (k : ℕ) : List ImageFile → List (ℕ × ImageFile)
  | [] => []
  | a :: l => (k, a) :: enumFromIdx (k + 1) l

/-- The inner `while` loop of `arrange_images_on_page` (lines 82-107):
fill one row.  Returns the images accepted into the row from this point
on, the final `row_height`, and the unconsumed remainder of the list.
Each image's target box is `min remaining_width (0.8 * available_width)`
by `min remaining_height (0.6 * available_height)`; a probe failure is
skipped; an accepted image shrinks `remaining_width` by its width plus
10pt; the loop exits when `remaining_width ≤ 50`, when an image does not
fit the remaining width, or when the list is exhausted. -/
def fitRowAux (aw ah remH : ℚ) :
    List (ℕ × ImageFile) → ℚ → ℚ → List RowImg × ℚ × List (ℕ × ImageFile)
  | [], _, rowH => ([], rowH, [])
  | (i, img) :: rest, remW, rowH =>
    if 50 < remW then
      match calculate_image_dimensions img (min remW (aw * (8 / 10)))
          (min remH (ah * (6 / 10))) with
      | none => fitRowAux aw ah remH rest remW rowH
      | some (w, h, s) =>
        if w ≤ remW then
          let r := fitRowAux aw ah remH rest (remW - (w + 10)) (max rowH h)
          (⟨i, w, h, s⟩ :: r.1, r.2.1, r.2.2)
        else ([], rowH, (i, img) :: rest)
    else ([], rowH, (i, img) :: rest)

/-- The outer `while` loop of `arrange_images_on_page` (lines 76-114):
stack rows while `remaining_height > 50`; a completed row is kept when it
is nonempty and its height fits, otherwise the loop breaks (returning the
index as far as the inner loop advanced it, exactly as the source does).
The fuel argument is instantiated with the list length by the caller;
each recursive call consumes at least one image, so the zero-fuel branch
is reached only with an empty list, where it returns what the loop exit
returns. -/
def arrangeOuter (aw ah : ℚ) :
    ℕ → List (ℕ × ImageFile) → ℚ → List (List RowImg) × List (ℕ × ImageFile)
  | 0, l, _ => ([], l)
  | fuel + 1, l, remH =>
    if l = [] ∨ ¬ 50 < remH then ([], l)
    else
      let fr := fitRowAux aw ah remH l aw 0
      if fr.1 = [] ∨ ¬ fr.2.1 ≤ remH then ([], fr.2.2)
      else
        let r2 := arrangeOuter aw ah fuel fr.2.2 (remH - (fr.2.1 + 10))
        (fr.1 :: r2.1, r2.2)

/-- `arrange_images_on_page` from `images_to_pdf_v1.py`, lines 67-116:
the rows for one page starting at `start_idx`, and the index the loop
advanced to. -/
def arrange_images_on_page (image_files : List ImageFile) (start_idx : ℕ)
    (available_width available_height : ℚ) : List (List RowImg) × ℕ :=
  let suffix := enumFromIdx start_idx (image_files.drop start_idx)
  let r := arrangeOuter available_width available_height suffix.length suffix
    available_height
  (r.1, start_idx + (suffix.length - r.2.length))

/-- `max(img['height'] for img in row)` over a nonempty row (line 175 of
v1); 0 for an empty row, which the drawing loop never sees. -/
def rowMaxHeight : List RowImg → ℚ
  | [] => 0
  | r :: rest => rest.foldl (fun m x => max m x.height) r.height

/-- The inner drawing loop of `create_pdf_from_images` (lines 179-191):
place the row's images left to right from `start_x`, each vertically
centered within the row, advancing by width plus 10pt. -/
def placeRowImgs (x y rowH : ℚ) : List RowImg → List Placement
  | [] => []
  | r :: rs =>
    { idx := r.idx, x := x, y := y + (rowH - r.height) / 2,
      width := r.width, height := r.height, scale := r.scale } ::
      placeRowImgs (x + r.width + 10) y rowH rs

/-- The row-drawing loop of `create_pdf_from_images` (lines 167-193):
rows stack downward from `current_y`, each centered horizontally, with a
10pt gap between rows. -/
def drawRows (aw : ℚ) : List (List RowImg) → ℚ → List Placement
  | [], _ => []
  | row :: rows, current_y =>
    let row_width := (row.map RowImg.width).sum + ((row.length : ℚ) - 1) * 10
    let start_x := MARGIN + (aw - row_width) / 2
    let row_height := rowMaxHeight row
    let y := current_y - row_height
    placeRowImgs start_x y row_height row ++ drawRows aw rows (y - 10)

/-- One page of drawn placements: `current_y` starts at
`A4_HEIGHT - MARGIN` (line 167). -/
def drawPage (aw : ℚ) (page : List (List RowImg)) : List Placement :=
  drawRows aw page (A4_HEIGHT - MARGIN)

/-- The page loop of `create_pdf_from_images` (lines 137-200): arrange a
page; if no images fit, place the single image at `current_idx` centered
at the full canvas bound (lines 145-164, an empty page when its probe
fails) and advance by one; otherwise draw the arranged rows and continue
at the index the arrangement reached.  Fuel is instantiated with the list
length; every iteration advances the index by at least one. -/
def create_pdf_aux (aw ah : ℚ) (image_files : List ImageFile) :
    ℕ → ℕ → List (List Placement)
  | 0, _ => []
  | fuel + 1, current_idx =>
    if image_files.length ≤ current_idx then []
    else
      let ar := arrange_images_on_page image_files current_idx aw ah
      if ar.1 = [] then
        let page : List Placement :=
          match calculate_image_dimensions (image_files.getD current_idx none)
              aw ah with
          | none => []
          | some (w, h, s) =>
            [{ idx := current_idx, x := MARGIN + (aw - w) / 2,
               y := MARGIN + (ah - h) / 2, width := w, height := h, scale := s }]
        page :: create_pdf_aux aw ah image_files fuel (current_idx + 1)
      else
        drawPage aw ar.1 :: create_pdf_aux aw ah image_files fuel ar.2

/-- `create_pdf_from_images` from `images_to_pdf_v1.py`, lines 118-205. -/
def create_pdf_from_images (image_files : List ImageFile) : PdfResult :=
  if image_files = [] then PdfResult.noImages
  else PdfResult.created
    (create_pdf_aux (A4_WIDTH - 2 * MARGIN) (A4_HEIGHT - 2 * MARGIN) image_files
      image_files.length 0)

/-- Width consumed in a row by a list of accepted images: each image
takes its width plus the 10pt spacing the loop subtracts with it. -/
def consumedW (row : List RowImg) : ℚ :=
  (row.map (fun r => r.width + 10)).sum

theorem enumFromIdx_length (k : ℕ) :
    ∀ l : List ImageFile, (enumFromIdx k l).length = l.length := by
  intro l
  induction l generalizing k with
  | nil => rfl
  | cons a l ih => simp [enumFromIdx, ih]

theorem enumFromIdx_mem :
    ∀ (l : List ImageFile) (k : ℕ) (x : ℕ × ImageFile), x ∈ enumFromIdx k l →
      k ≤ x.1 ∧ x.1 - k < l.length ∧ l.getD (x.1 - k) none = x.2
  | [], k, x, hx => by simp [enumFromIdx] at hx
  | a :: l, k, x, hx => by
    simp only [enumFromIdx, List.mem_cons] at hx
    rcases hx with rfl | hx
    · simp
    · obtain ⟨h1, h2, h3⟩ := enumFromIdx_mem l (k + 1) x hx
      refine ⟨by omega, by simp; omega, ?_⟩
      have : x.1 - k = (x.1 - (k + 1)) + 1 := by omega
      rw [this, List.getD_cons_succ]
      exact h3

theorem enumFromIdx_drop (j : ℕ) :
    ∀ (l : List ImageFile) (k : ℕ),
      (enumFromIdx k l).drop j = enumFromIdx (k + j) (l.drop j) := by
  induction j with
  | zero => intro l k; simp
  | succ j ih =>
    intro l k
    match l with
    | [] => simp [enumFromIdx]
    | a :: l =>
      show (enumFromIdx (k + 1) l).drop j = _
      rw [ih l (k + 1)]
      congr 1
      omega

theorem enumFromIdx_countP (p : ImageFile → Bool) :
    ∀ (l : List ImageFile) (k : ℕ),
      (enumFromIdx k l).countP (fun x => p x.2) = l.countP p
  | [], _ => rfl
  | a :: l, k => by
    simp only [enumFromIdx, List.countP_cons]
    rw [enumFromIdx_countP p l (k + 1)]

theorem getD_drop (l : List ImageFile) (s i : ℕ) :
    (l.drop s).getD i none = l.getD (s + i) none := by
  induction l generalizing s i with
  | nil => simp
  | cons a l ih =>
    match s with
    | 0 => simp
    | s + 1 =>
      show (l.drop s).getD i none = _
      rw [ih s i]
      have : s + 1 + i = (s + i) + 1 := by omega
      rw [this, List.getD_cons_succ]

theorem calc_some_fits {img : ImageFile} {remW x bh w h s : ℚ}
    (hc : calculate_image_dimensions img (min remW x) bh = some (w, h, s)) :
    w ≤ remW := by
  obtain ⟨d, -, -, -, -, -, -, hwle, -, -⟩ := calc_dims_shape hc
  exact le_trans hwle (min_le_left _ _)

theorem fitRowAux_rest_drop (aw ah remH : ℚ) :
    ∀ (l : List (ℕ × ImageFile)) (remW rowH : ℚ),
      ∃ j, j ≤ l.length ∧
        (fitRowAux aw ah remH l remW rowH).2.2 = l.drop j ∧
        ((fitRowAux aw ah remH l remW rowH).1 ≠ [] → 1 ≤ j) ∧
        (fitRowAux aw ah remH l remW rowH).1.length ≤ j
  | [], remW, rowH => ⟨0, by simp [fitRowAux]⟩
  | (i, img) :: rest, remW, rowH => by
    simp only [fitRowAux]
    by_cases hg : 50 < remW
    · rw [if_pos hg]
      cases hcalc : calculate_image_dimensions img (min remW (aw * (8 / 10)))
          (min remH (ah * (6 / 10))) with
      | none =>
        obtain ⟨j, hj1, hj2, hj3, hj4⟩ := fitRowAux_rest_drop aw ah remH rest remW rowH
        exact ⟨j + 1, by simp; omega, by simpa using hj2, fun _ => by omega,
          by simpa using by omega⟩
      | some whs =>
        obtain ⟨w, h, s⟩ := whs
        dsimp only
        rw [if_pos (calc_some_fits hcalc)]
        obtain ⟨j, hj1, hj2, hj3, hj4⟩ :=
          fitRowAux_rest_drop aw ah remH rest (remW - (w + 10)) (max rowH h)
        exact ⟨j + 1, by simp; omega, by simpa using hj2, fun _ => by omega,
          by simp; omega⟩
    · rw [if_neg hg]
      exact ⟨0, by simp⟩

theorem fitRowAux_rowH (aw ah remH : ℚ) :
    ∀ (l : List (ℕ × ImageFile)) (remW rowH : ℚ),
      (fitRowAux aw ah remH l remW rowH).2.1 =
        ((fitRowAux aw ah remH l remW rowH).1.map RowImg.height).foldl max rowH
  | [], remW, rowH => by simp [fitRowAux]
  | (i, img) :: rest, remW, rowH => by
    simp only [fitRowAux]
    by_cases hg : 50 < remW
    · rw [if_pos hg]
      cases hcalc : calculate_image_dimensions img (min remW (aw * (8 / 10)))
          (min remH (ah * (6 / 10))) with
      | none => exact fitRowAux_rowH aw ah remH rest remW rowH
      | some whs =>
        obtain ⟨w, h, s⟩ := whs
        dsimp only
        rw [if_pos (calc_some_fits hcalc)]
        simpa using fitRowAux_rowH aw ah remH rest (remW - (w + 10)) (max rowH h)
    · rw [if_neg hg]
      simp

theorem fitRowAux_sum (aw ah remH : ℚ) :
    ∀ (l : List (ℕ × ImageFile)) (remW rowH : ℚ),
      (fitRowAux aw ah remH l remW rowH).1 ≠ [] →
      ((fitRowAux aw ah remH l remW rowH).1.map RowImg.width).sum +
        10 * (((fitRowAux aw ah remH l remW rowH).1.length : ℚ) - 1) ≤ remW
  | [], remW, rowH => by simp [fitRowAux]
  | (i, img) :: rest, remW, rowH => by
    simp only [fitRowAux]
    by_cases hg : 50 < remW
    · rw [if_pos hg]
      cases hcalc : calculate_image_dimensions img (min remW (aw * (8 / 10)))
          (min remH (ah * (6 / 10))) with
      | none => exact fitRowAux_sum aw ah remH rest remW rowH
      | some whs =>
        obtain ⟨w, h, s⟩ := whs
        dsimp only
        have hfit := calc_some_fits hcalc
        rw [if_pos hfit]
        intro hne
        by_cases hrest : (fitRowAux aw ah remH rest (remW - (w + 10)) (max rowH h)).1 = []
        · simp [hrest]
          linarith
        · have hrec := fitRowAux_sum aw ah remH rest (remW - (w + 10)) (max rowH h) hrest
          simp only [List.map_cons, List.sum_cons, List.length_cons]
          push_cast
          have hlen1 : (1 : ℚ) ≤
              ((fitRowAux aw ah remH rest (remW - (w + 10)) (max rowH h)).1.length : ℚ) := by
            have : 1 ≤ (fitRowAux aw ah remH rest (remW - (w + 10)) (max rowH h)).1.length := by
              match hr2 : (fitRowAux aw ah remH rest (remW - (w + 10)) (max rowH h)).1 with
              | [] => exact absurd hr2 hrest
              | _ :: _ => simp
            exact_mod_cast this
          linarith
    · rw [if_neg hg]
      simp

theorem fitRowAux_mem_spec (aw ah remH : ℚ) :
    ∀ (l : List (ℕ × ImageFile)) (remW rowH : ℚ)
      (pre : List RowImg) (r : RowImg) (post : List RowImg),
      (fitRowAux aw ah remH l remW rowH).1 = pre ++ r :: post →
      ∃ img, (r.idx, img) ∈ l ∧
        calculate_image_dimensions img
          (min (remW - consumedW pre) (aw * (8 / 10))) (min remH (ah * (6 / 10)))
          = some (r.width, r.height, r.scale)
  | [], remW, rowH, pre, r, post => by simp [fitRowAux]
  | (i, img) :: rest, remW, rowH, pre, r, post => by
    simp only [fitRowAux]
    by_cases hg : 50 < remW
    · rw [if_pos hg]
      cases hcalc : calculate_image_dimensions img (min remW (aw * (8 / 10)))
          (min remH (ah * (6 / 10))) with
      | none =>
        intro hrow
        obtain ⟨img2, hmem, hc⟩ :=
          fitRowAux_mem_spec aw ah remH rest remW rowH pre r post hrow
        exact ⟨img2, List.mem_cons_of_mem _ hmem, hc⟩
      | some whs =>
        obtain ⟨w, h, s⟩ := whs
        dsimp only
        rw [if_pos (calc_some_fits hcalc)]
        intro hrow
        match pre with
        | [] =>
          simp only [List.nil_append] at hrow
          have hr : r = ⟨i, w, h, s⟩ := by
            have := List.head_eq_of_cons_eq hrow.symm
            exact this
          subst hr
          refine ⟨img, List.mem_cons_self _ _, ?_⟩
          simpa [consumedW] using hcalc
        | rh :: pre2 =>
          simp only [List.cons_append] at hrow
          have hhead : (⟨i, w, h, s⟩ : RowImg) = rh :=
            List.head_eq_of_cons_eq hrow
          have htail := List.tail_eq_of_cons_eq hrow
          obtain ⟨img2, hmem, hc⟩ :=
            fitRowAux_mem_spec aw ah remH rest (remW - (w + 10)) (max rowH h)
              pre2 r post htail
          refine ⟨img2, List.mem_cons_of_mem _ hmem, ?_⟩
          have : remW - (w + 10) - consumedW pre2 = remW - consumedW (rh :: pre2) := by
            simp only [consumedW, List.map_cons, List.sum_cons, ← hhead]
            ring
          rwa [this] at hc
    · rw [if_neg hg]
      simp

theorem fitRowAux_stop (aw ah remH : ℚ) :
    ∀ (l : List (ℕ × ImageFile)) (remW rowH : ℚ),
      (fitRowAux aw ah remH l remW rowH).2.2 ≠ [] →
      remW - consumedW (fitRowAux aw ah remH l remW rowH).1 ≤ 50
  | [], remW, rowH => by simp [fitRowAux]
  | (i, img) :: rest, remW, rowH => by
    simp only [fitRowAux]
    by_cases hg : 50 < remW
    · rw [if_pos hg]
      cases hcalc : calculate_image_dimensions img (min remW (aw * (8 / 10)))
          (min remH (ah * (6 / 10))) with
      | none => exact fitRowAux_stop aw ah remH rest remW rowH
      | some whs =>
        obtain ⟨w, h, s⟩ := whs
        dsimp only
        rw [if_pos (calc_some_fits hcalc)]
        intro hne
        have hrec := fitRowAux_stop aw ah remH rest (remW - (w + 10)) (max rowH h)
          (by simpa using hne)
        simp only [consumedW, List.map_cons, List.sum_cons] at hrec ⊢
        linarith
    · rw [if_neg hg]
      intro
      simp [consumedW]
      linarith

theorem fitRowAux_empty_rest (aw ah remH : ℚ) :
    ∀ (l : List (ℕ × ImageFile)) (remW rowH : ℚ), 50 < remW →
      (fitRowAux aw ah remH l remW rowH).1 = [] →
      (fitRowAux aw ah remH l remW rowH).2.2 = []
  | [], remW, rowH => by simp [fitRowAux]
  | (i, img) :: rest, remW, rowH => by
    intro hg
    simp only [fitRowAux]
    rw [if_pos hg]
    cases hcalc : calculate_image_dimensions img (min remW (aw * (8 / 10)))
        (min remH (ah * (6 / 10))) with
    | none => exact fitRowAux_empty_rest aw ah remH rest remW rowH hg
    | some whs =>
      obtain ⟨w, h, s⟩ := whs
      dsimp only
      rw [if_pos (calc_some_fits hcalc)]
      intro hcon
      simp at hcon

theorem fitRowAux_height_le (aw ah remH : ℚ) :
    ∀ (l : List (ℕ × ImageFile)) (remW rowH : ℚ), rowH ≤ remH →
      (fitRowAux aw ah remH l remW rowH).2.1 ≤ remH
  | [], remW, rowH => by simp [fitRowAux]
  | (i, img) :: rest, remW, rowH => by
    intro hle
    simp only [fitRowAux]
    by_cases hg : 50 < remW
    · rw [if_pos hg]
      cases hcalc : calculate_image_dimensions img (min remW (aw * (8 / 10)))
          (min remH (ah * (6 / 10))) with
      | none => exact fitRowAux_height_le aw ah remH rest remW rowH hle
      | some whs =>
        obtain ⟨w, h, s⟩ := whs
        dsimp only
        rw [if_pos (calc_some_fits hcalc)]
        have hh : h ≤ remH := by
          obtain ⟨d, -, -, -, -, -, -, -, hhle, -⟩ := calc_dims_shape hcalc
          exact le_trans hhle (min_le_left _ _)
        exact fitRowAux_height_le aw ah remH rest (remW - (w + 10)) (max rowH h)
          (by simp [hle, hh])
    · rw [if_neg hg]
      simpa using hle

theorem fitRowAux_count (aw ah remH : ℚ) :
    ∀ (l : List (ℕ × ImageFile)) (remW rowH : ℚ),
      (fitRowAux aw ah remH l remW rowH).1.length +
        (fitRowAux aw ah remH l remW rowH).2.2.countP (fun x => probeOk x.2) =
      l.countP (fun x => probeOk x.2)
  | [], remW, rowH => by simp [fitRowAux]
  | (i, img) :: rest, remW, rowH => by
    simp only [fitRowAux]
    have hok := calc_dims_isSome_iff img (min remW (aw * (8 / 10)))
      (min remH (ah * (6 / 10)))
    by_cases hg : 50 < remW
    · rw [if_pos hg]
      cases hcalc : calculate_image_dimensions img (min remW (aw * (8 / 10)))
          (min remH (ah * (6 / 10))) with
      | none =>
        rw [hcalc] at hok
        rw [List.countP_cons]
        simp only [← hok]
        simpa using fitRowAux_count aw ah remH rest remW rowH
      | some whs =>
        obtain ⟨w, h, s⟩ := whs
        dsimp only
        rw [hcalc] at hok
        rw [if_pos (calc_some_fits hcalc)]
        rw [List.countP_cons]
        simp only [← hok]
        have := fitRowAux_count aw ah remH rest (remW - (w + 10)) (max rowH h)
        simp only [List.length_cons]
        simp at this ⊢
        omega
    · rw [if_neg hg]
      simp

/-- The `row_height` value the arrangement loop accumulates for a row: a
running maximum starting from 0 (line 78 of v1). -/
def rowH0 (row : List RowImg) : ℚ := (row.map RowImg.height).foldl max 0

/-- Height consumed on a page by a list of accepted rows: each row takes
its height plus the 10pt spacing the loop subtracts with it. -/
def consumedRows (pages : List (List RowImg)) : ℚ :=
  (pages.map (fun row => rowH0 row + 10)).sum

theorem arrangeOuter_rows (aw ah : ℚ) :
    ∀ (fuel : ℕ) (l : List (ℕ × ImageFile)) (remH : ℚ),
      ∀ row ∈ (arrangeOuter aw ah fuel l remH).1,
        row ≠ [] ∧
        (row.map RowImg.width).sum + 10 * ((row.length : ℚ) - 1) ≤ aw
  | 0, l, remH => by simp [arrangeOuter]
  | fuel + 1, l, remH => by
    simp only [arrangeOuter]
    split
    · simp
    · split
      · simp
      · rename_i hguard hkeep
        push_neg at hkeep
        intro row hrow
        rcases List.mem_cons.mp hrow with rfl | hmem
        · exact ⟨hkeep.1, fitRowAux_sum aw ah remH l aw 0 hkeep.1⟩
        · exact arrangeOuter_rows aw ah fuel _ _ row hmem

theorem arrangeOuter_height_sum (aw ah : ℚ) :
    ∀ (fuel : ℕ) (l : List (ℕ × ImageFile)) (remH : ℚ),
      (arrangeOuter aw ah fuel l remH).1 ≠ [] →
      (((arrangeOuter aw ah fuel l remH).1.map rowH0).sum : ℚ) +
        10 * (((arrangeOuter aw ah fuel l remH).1.length : ℚ) - 1) ≤ remH
  | 0, l, remH => by simp [arrangeOuter]
  | fuel + 1, l, remH => by
    simp only [arrangeOuter]
    split
    · simp
    · split
      · simp
      · rename_i hguard hkeep
        push_neg at hkeep
        intro hne
        have hr0 : (fitRowAux aw ah remH l aw 0).2.1 = rowH0 (fitRowAux aw ah remH l aw 0).1 :=
          fitRowAux_rowH aw ah remH l aw 0
        rw [hr0] at hkeep ⊢
        have hfit : rowH0 (fitRowAux aw ah remH l aw 0).1 ≤ remH := hkeep.2
        by_cases hrec : (arrangeOuter aw ah fuel (fitRowAux aw ah remH l aw 0).2.2
            (remH - (rowH0 (fitRowAux aw ah remH l aw 0).1 + 10))).1 = []
        · simp only [hrec]
          simp
          linarith
        · have hsum := arrangeOuter_height_sum aw ah fuel
            (fitRowAux aw ah remH l aw 0).2.2
            (remH - (rowH0 (fitRowAux aw ah remH l aw 0).1 + 10)) hrec
          simp only [List.map_cons, List.sum_cons, List.length_cons]
          push_cast
          have hlen1 : (1 : ℚ) ≤ ((arrangeOuter aw ah fuel (fitRowAux aw ah remH l aw 0).2.2
              (remH - (rowH0 (fitRowAux aw ah remH l aw 0).1 + 10))).1.length : ℚ) := by
            have : 1 ≤ (arrangeOuter aw ah fuel (fitRowAux aw ah remH l aw 0).2.2
                (remH - (rowH0 (fitRowAux aw ah remH l aw 0).1 + 10))).1.length := by
              match hr2 : (arrangeOuter aw ah fuel (fitRowAux aw ah remH l aw 0).2.2
                  (remH - (rowH0 (fitRowAux aw ah remH l aw 0).1 + 10))).1 with
              | [] => exact absurd hr2 hrec
              | _ :: _ => simp
            exact_mod_cast this
          linarith

theorem arrangeOuter_rest_drop (aw ah : ℚ) :
    ∀ (fuel : ℕ) (l : List (ℕ × ImageFile)) (remH : ℚ),
      ∃ j, j ≤ l.length ∧ (arrangeOuter aw ah fuel l remH).2 = l.drop j ∧
        ((arrangeOuter aw ah fuel l remH).1 ≠ [] → 1 ≤ j)
  | 0, l, remH => ⟨0, by simp [arrangeOuter]⟩
  | fuel + 1, l, remH => by
    simp only [arrangeOuter]
    split
    · exact ⟨0, by simp⟩
    · split
      · rename_i hguard hbreak
        obtain ⟨j, hj1, hj2, hj3, hj4⟩ := fitRowAux_rest_drop aw ah remH l aw 0
        exact ⟨j, hj1, hj2, by simp⟩
      · rename_i hguard hkeep
        push_neg at hkeep
        obtain ⟨j1, hj11, hj12, hj13, hj14⟩ := fitRowAux_rest_drop aw ah remH l aw 0
        obtain ⟨j2, hj21, hj22, hj23⟩ := arrangeOuter_rest_drop aw ah fuel
          (fitRowAux aw ah remH l aw 0).2.2
          (remH - ((fitRowAux aw ah remH l aw 0).2.1 + 10))
        refine ⟨j1 + j2, ?_, ?_, ?_⟩
        · have hlen2 : (fitRowAux aw ah remH l aw 0).2.2.length = l.length - j1 := by
            rw [hj12]
            exact List.length_drop _ _
          omega
        · show (arrangeOuter aw ah fuel (fitRowAux aw ah remH l aw 0).2.2
            (remH - ((fitRowAux aw ah remH l aw 0).2.1 + 10))).2 = l.drop (j1 + j2)
          rw [hj22, hj12, List.drop_drop, Nat.add_comm j1 j2]
        · intro
          have := hj13 hkeep.1
          omega

theorem arrangeOuter_stop (aw ah : ℚ) :
    ∀ (fuel : ℕ) (l : List (ℕ × ImageFile)) (remH : ℚ),
      l.length ≤ fuel → 50 < aw →
      (arrangeOuter aw ah fuel l remH).2 ≠ [] →
      remH - consumedRows (arrangeOuter aw ah fuel l remH).1 ≤ 50
  | 0, l, remH => by
    intro hfuel haw
    have : l = [] := by
      match l with
      | [] => rfl
      | _ :: _ => simp at hfuel
    subst this
    simp [arrangeOuter]
  | fuel + 1, l, remH => by
    intro hfuel haw
    simp only [arrangeOuter]
    split
    · rename_i hguard
      rcases hguard with hl | hh
      · intro hcon; exact absurd hl hcon
      · intro
        push_neg at hh
        simp [consumedRows]
        linarith
    · split
      · rename_i hguard hbreak
        push_neg at hguard
        rcases hbreak with hrow | hheight
        · rw [fitRowAux_empty_rest aw ah remH l aw 0 haw hrow]
          intro hcon
          exact absurd rfl hcon
        · exact absurd (fitRowAux_height_le aw ah remH l aw 0 (by linarith [hguard.2]))
            hheight
      · rename_i hguard hkeep
        push_neg at hguard hkeep
        have hr0 : (fitRowAux aw ah remH l aw 0).2.1 =
            rowH0 (fitRowAux aw ah remH l aw 0).1 := fitRowAux_rowH aw ah remH l aw 0
        rw [hr0] at hkeep ⊢
        intro hrest
        obtain ⟨j1, hj11, hj12, hj13, hj14⟩ := fitRowAux_rest_drop aw ah remH l aw 0
        have hjlen : (fitRowAux aw ah remH l aw 0).2.2.length ≤ fuel := by
          have hlen2 : (fitRowAux aw ah remH l aw 0).2.2.length = l.length - j1 := by
            rw [hj12]
            exact List.length_drop _ _
          have hj1pos := hj13 hkeep.1
          omega
        have hrec := arrangeOuter_stop aw ah fuel (fitRowAux aw ah remH l aw 0).2.2
          (remH - (rowH0 (fitRowAux aw ah remH l aw 0).1 + 10)) hjlen haw
          (by simpa using hrest)
        simp only [consumedRows, List.map_cons, List.sum_cons] at hrec ⊢
        linarith

theorem arrangeOuter_spec (aw ah : ℚ) :
    ∀ (fuel : ℕ) (l : List (ℕ × ImageFile)) (remH : ℚ)
      (ppre : List (List RowImg)) (prow : List RowImg) (ppost : List (List RowImg)),
      (arrangeOuter aw ah fuel l remH).1 = ppre ++ prow :: ppost →
      ∀ (pre : List RowImg) (r : RowImg) (post : List RowImg),
        prow = pre ++ r :: post →
        ∃ img, (r.idx, img) ∈ l ∧
          calculate_image_dimensions img
            (min (aw - consumedW pre) (aw * (8 / 10)))
            (min (remH - consumedRows ppre) (ah * (6 / 10)))
            = some (r.width, r.height, r.scale)
  | 0, l, remH => by simp [arrangeOuter]
  | fuel + 1, l, remH => by
    simp only [arrangeOuter]
    split
    · simp
    · split
      · simp
      · rename_i hguard hkeep
        push_neg at hkeep
        intro ppre prow ppost hpages pre r post hprow
        match ppre with
        | [] =>
          simp only [List.nil_append] at hpages
          have hrow0 : (fitRowAux aw ah remH l aw 0).1 = prow :=
            List.head_eq_of_cons_eq hpages
          subst hprow
          obtain ⟨img, hmem, hc⟩ :=
            fitRowAux_mem_spec aw ah remH l aw 0 pre r post hrow0
          refine ⟨img, hmem, ?_⟩
          simpa [consumedRows] using hc
        | p0 :: ppre2 =>
          simp only [List.cons_append] at hpages
          have hp0 : (fitRowAux aw ah remH l aw 0).1 = p0 :=
            List.head_eq_of_cons_eq hpages
          have htail := List.tail_eq_of_cons_eq hpages
          obtain ⟨img, hmem, hc⟩ := arrangeOuter_spec aw ah fuel
            (fitRowAux aw ah remH l aw 0).2.2
            (remH - ((fitRowAux aw ah remH l aw 0).2.1 + 10))
            ppre2 prow ppost htail pre r post hprow
          obtain ⟨j1, hj11, hj12, hj13, hj14⟩ := fitRowAux_rest_drop aw ah remH l aw 0
          refine ⟨img, ?_, ?_⟩
          · rw [hj12] at hmem
            exact List.mem_of_mem_drop hmem
          · have hr0 : (fitRowAux aw ah remH l aw 0).2.1 =
                rowH0 (fitRowAux aw ah remH l aw 0).1 := fitRowAux_rowH aw ah remH l aw 0
            have heq : remH - ((fitRowAux aw ah remH l aw 0).2.1 + 10) -
                consumedRows ppre2 = remH - consumedRows (p0 :: ppre2) := by
              simp only [consumedRows, List.map_cons, List.sum_cons, hr0, hp0]
              ring
            rwa [heq] at hc

theorem arrangeOuter_count (aw ah : ℚ) :
    ∀ (fuel : ℕ) (l : List (ℕ × ImageFile)) (remH : ℚ), l.length ≤ fuel →
      (((arrangeOuter aw ah fuel l remH).1.map List.length).sum : ℕ) +
        (arrangeOuter aw ah fuel l remH).2.countP (fun x => probeOk x.2) =
      l.countP (fun x => probeOk x.2)
  | 0, l, remH => by
    intro hfuel
    have : l = [] := by
      match l with
      | [] => rfl
      | _ :: _ => simp at hfuel
    subst this
    simp [arrangeOuter]
  | fuel + 1, l, remH => by
    intro hfuel
    simp only [arrangeOuter]
    split
    · simp
    · split
      · rename_i hguard hbreak
        push_neg at hguard
        rcases hbreak with hrow | hheight
        · have := fitRowAux_count aw ah remH l aw 0
          rw [hrow] at this
          simpa using this
        · exact absurd (fitRowAux_height_le aw ah remH l aw 0 (by linarith [hguard.2]))
            hheight
      · rename_i hguard hkeep
        push_neg at hguard hkeep
        obtain ⟨j1, hj11, hj12, hj13, hj14⟩ := fitRowAux_rest_drop aw ah remH l aw 0
        have hjlen : (fitRowAux aw ah remH l aw 0).2.2.length ≤ fuel := by
          have := List.length_drop j1 l
          rw [← hj12] at this
          have hj1pos := hj13 hkeep.1
          omega
        have hrec := arrangeOuter_count aw ah fuel (fitRowAux aw ah remH l aw 0).2.2
          (remH - ((fitRowAux aw ah remH l aw 0).2.1 + 10)) hjlen
        have hcnt := fitRowAux_count aw ah remH l aw 0
        simp only [List.map_cons, List.sum_cons]
        omega

theorem placeRowImgs_mem :
    ∀ (row : List RowImg) (x y rowH : ℚ) (p : Placement),
      p ∈ placeRowImgs x y rowH row →
      ∃ r ∈ row, p.idx = r.idx ∧ p.width = r.width ∧
        p.height = r.height ∧ p.scale = r.scale
  | [], _, _, _, p, hp => by simp [placeRowImgs] at hp
  | r :: rs, x, y, rowH, p, hp => by
    simp only [placeRowImgs, List.mem_cons] at hp
    rcases hp with rfl | hp
    · exact ⟨r, List.mem_cons_self _ _, rfl, rfl, rfl, rfl⟩
    · obtain ⟨r2, hm, h⟩ := placeRowImgs_mem rs _ _ _ p hp
      exact ⟨r2, List.mem_cons_of_mem _ hm, h⟩

theorem placeRowImgs_length :
    ∀ (row : List RowImg) (x y rowH : ℚ),
      (placeRowImgs x y rowH row).length = row.length
  | [], _, _, _ => rfl
  | r :: rs, x, y, rowH => by
    simp only [placeRowImgs, List.length_cons]
    rw [placeRowImgs_length rs]

theorem drawRows_mem :
    ∀ (rows : List (List RowImg)) (aw cy : ℚ) (p : Placement),
      p ∈ drawRows aw rows cy →
      ∃ row ∈ rows, ∃ r ∈ row, p.idx = r.idx ∧ p.width = r.width ∧
        p.height = r.height ∧ p.scale = r.scale
  | [], _, _, p, hp => by simp [drawRows] at hp
  | row :: rows, aw, cy, p, hp => by
    simp only [drawRows, List.mem_append] at hp
    rcases hp with hp | hp
    · obtain ⟨r, hm, h⟩ := placeRowImgs_mem row _ _ _ p hp
      exact ⟨row, List.mem_cons_self _ _, r, hm, h⟩
    · obtain ⟨row2, hrm, r, hm, h⟩ := drawRows_mem rows aw _ p hp
      exact ⟨row2, List.mem_cons_of_mem _ hrm, r, hm, h⟩

theorem drawRows_length :
    ∀ (rows : List (List RowImg)) (aw cy : ℚ),
      (drawRows aw rows cy).length = (rows.map List.length).sum
  | [], _, _ => rfl
  | row :: rows, aw, cy => by
    simp only [drawRows, List.length_append, List.map_cons, List.sum_cons]
    rw [placeRowImgs_length, drawRows_length rows]

/-- Every placement of a v1 run comes from a successful
`calculate_image_dimensions` call on the image of its own input index, at
some bounding box. -/
theorem create_pdf_aux_mem (aw ah : ℚ) (image_files : List ImageFile) :
    ∀ (fuel current_idx : ℕ) (page : List Placement) (p : Placement),
      page ∈ create_pdf_aux aw ah image_files fuel current_idx →
      p ∈ page →
      ∃ bw bh, calculate_image_dimensions (image_files.getD p.idx none) bw bh
        = some (p.width, p.height, p.scale)
  | 0, current_idx, page, p, hpage, hp => by simp [create_pdf_aux] at hpage
  | fuel + 1, current_idx, page, p, hpage, hp => by
    simp only [create_pdf_aux] at hpage
    split at hpage
    · simp at hpage
    · rename_i hlt
      push_neg at hlt
      split at hpage
      · rename_i hempty
        rcases List.mem_cons.mp hpage with rfl | hrec
        · -- the fallback single-image page
          revert hp
          cases hcalc : calculate_image_dimensions
              (image_files.getD current_idx none) aw ah with
          | none => intro hp; simp at hp
          | some whs =>
            obtain ⟨w, h, s⟩ := whs
            intro hp
            simp only [List.mem_singleton] at hp
            subst hp
            exact ⟨aw, ah, hcalc⟩
        · exact create_pdf_aux_mem aw ah image_files fuel (current_idx + 1)
            page p hrec hp
      · rcases List.mem_cons.mp hpage with rfl | hrec
        · -- a drawn page of arranged rows
          obtain ⟨row, hrowm, r, hrm, hidx, hw, hh, hs⟩ :=
            drawRows_mem _ aw _ p hp
          obtain ⟨s1, t1, hsplit1⟩ := List.append_of_mem hrowm
          obtain ⟨s2, t2, hsplit2⟩ := List.append_of_mem hrm
          obtain ⟨img, hmem, hc⟩ := arrangeOuter_spec aw ah _ _ _
            s1 row t1 hsplit1 s2 r t2 hsplit2
          obtain ⟨h1, h2, h3⟩ := enumFromIdx_mem _ _ _ hmem
          refine ⟨min (aw - consumedW s2) (aw * (8 / 10)),
            min (ah - consumedRows s1) (ah * (6 / 10)), ?_⟩
          rw [hidx, hw, hh, hs]
          have hget : image_files.getD r.idx none =
              (image_files.drop current_idx).getD (r.idx - current_idx) none := by
            rw [getD_drop]
            congr 1
            omega
          rw [hget, h3]
          exact hc
        · exact create_pdf_aux_mem aw ah image_files fuel _ page p hrec hp

theorem arrange_images_on_page_def (image_files : List ImageFile)
    (start_idx : ℕ) (aw ah : ℚ) :
    arrange_images_on_page image_files start_idx aw ah =
      ((arrangeOuter aw ah
          (enumFromIdx start_idx (image_files.drop start_idx)).length
          (enumFromIdx start_idx (image_files.drop start_idx)) ah).1,
        start_idx + ((enumFromIdx start_idx (image_files.drop start_idx)).length -
          (arrangeOuter aw ah
            (enumFromIdx start_idx (image_files.drop start_idx)).length
            (enumFromIdx start_idx (image_files.drop start_idx)) ah).2.length)) :=
  rfl

/-- The number of placements a v1 run emits equals the number of input
images whose dimension probe succeeds with nonzero dimensions: probe
failures are excluded, and every probed image is placed exactly once. -/
theorem create_pdf_aux_count (aw ah : ℚ) (image_files : List ImageFile) :
    ∀ (fuel current_idx : ℕ), image_files.length - current_idx ≤ fuel →
      (((create_pdf_aux aw ah image_files fuel current_idx).map
          List.length).sum : ℕ) =
        (image_files.drop current_idx).countP probeOk
  | 0, current_idx, hfuel => by
    have hge : image_files.length ≤ current_idx := by omega
    rw [List.drop_eq_nil_of_le hge]
    simp [create_pdf_aux]
  | fuel + 1, current_idx, hfuel => by
    simp only [create_pdf_aux]
    split
    · rename_i hge
      rw [List.drop_eq_nil_of_le hge]
      simp
    · rename_i hge
      push_neg at hge
      have hdropcons : image_files.drop current_idx =
          image_files.getD current_idx none ::
            image_files.drop (current_idx + 1) := by
        rw [List.getD_eq_getElem _ _ hge]
        exact List.drop_eq_getElem_cons hge
      split
      · -- fallback single-image page
        have hrec := create_pdf_aux_count aw ah image_files fuel
          (current_idx + 1) (by omega)
        have hok := calc_dims_isSome_iff (image_files.getD current_idx none) aw ah
        cases hcalc : calculate_image_dimensions
            (image_files.getD current_idx none) aw ah with
        | none =>
          rw [hcalc] at hok
          rw [hdropcons, List.countP_cons]
          simp only [List.map_cons, List.sum_cons, hrec, ← hok]
          simp
        | some whs =>
          obtain ⟨w, h, s⟩ := whs
          rw [hcalc] at hok
          rw [hdropcons, List.countP_cons]
          simp only [List.map_cons, List.sum_cons, hrec, ← hok]
          simp
          omega
      · -- arranged page
        rename_i hnonempty
        rw [arrange_images_on_page_def] at hnonempty ⊢
        set suffix := enumFromIdx current_idx (image_files.drop current_idx)
          with hsuffix
        have hslen : suffix.length = image_files.length - current_idx := by
          rw [hsuffix, enumFromIdx_length, List.length_drop]
        obtain ⟨j, hj1, hj2, hj3⟩ :=
          arrangeOuter_rest_drop aw ah suffix.length suffix ah
        have hjpos : 1 ≤ j := hj3 (by simpa using hnonempty)
        have hrestlen : (arrangeOuter aw ah suffix.length suffix ah).2.length =
            suffix.length - j := by
          rw [hj2, List.length_drop]
        have hcnt := arrangeOuter_count aw ah suffix.length suffix ah (le_refl _)
        have hcsuffix : suffix.countP (fun x => probeOk x.2) =
            (image_files.drop current_idx).countP probeOk :=
          enumFromIdx_countP probeOk _ _
        have hcrest : (arrangeOuter aw ah suffix.length suffix ah).2.countP
            (fun x => probeOk x.2) =
            (image_files.drop (current_idx + j)).countP probeOk := by
          rw [hj2, hsuffix, enumFromIdx_drop, List.drop_drop,
            enumFromIdx_countP probeOk]
        have hnext : current_idx + (suffix.length -
            (arrangeOuter aw ah suffix.length suffix ah).2.length) =
            current_idx + j := by
          rw [hrestlen]
          omega
        have hrec := create_pdf_aux_count aw ah image_files fuel
          (current_idx + j) (by omega)
        simp only [List.map_cons, List.sum_cons, hnext, hrec]
        have hdraw : (drawPage aw
            (arrangeOuter aw ah suffix.length suffix ah).1).length =
            ((arrangeOuter aw ah suffix.length suffix ah).1.map
              List.length).sum := drawRows_length _ aw _
        rw [hdraw]
        omega

end V1

/-- A placement shifted by the page margin, as v2's and v3's drawing loop
does with `MARGIN + img_info['x']` (v2 lines 171-175, v3 lines 219-223). -/
def shiftPlacement (p : Placement) : Placement :=
  { p with x := MARGIN + p.x, y := MARGIN + p.y }

/-- `create_pdf_from_images` from `images_to_pdf_v2.py`, lines 145-188:
one page holding the whole grid. -/
def V2.create_pdf_from_images (image_files : List ImageFile) : PdfResult :=
  if image_files = [] then PdfResult.noImages
  else PdfResult.created
    [(V2.arrange_all_images_on_single_page image_files (A4_WIDTH - 2 * MARGIN)
        (A4_HEIGHT - 2 * MARGIN)).map shiftPlacement]

/-- `create_pdf_from_images` from `images_to_pdf_v3.py`, lines 193-236:
one page holding the whole spiral. -/
def V3.create_pdf_from_images (image_files : List ImageFile) : PdfResult :=
  if image_files = [] then PdfResult.noImages
  else PdfResult.created
    [(V3.arrange_all_images_on_single_page image_files (A4_WIDTH - 2 * MARGIN)
        (A4_HEIGHT - 2 * MARGIN)).map shiftPlacement]

/-- Claim C9: for every run whose input folder contains zero supported
image files, the engine short-circuits before any layout work with a
no-op result: the page list is empty, no PDF drawing call is made (there
are no placements at all), and the process reports that no images were
found without treating it as fatal (exit code 0; only a missing folder
exits with 1). -/
theorem claim_C9 :
    mainShortCircuit V1.create_pdf_from_images (some []) = (0, none) ∧
    mainShortCircuit V2.create_pdf_from_images (some []) = (0, none) ∧
    mainShortCircuit V3.create_pdf_from_images (some []) = (0, none) ∧
    V1.create_pdf_from_images [] = PdfResult.noImages ∧
    V2.create_pdf_from_images [] = PdfResult.noImages ∧
    V3.create_pdf_from_images [] = PdfResult.noImages ∧
    PdfResult.noImages.pages = [] ∧
    (∀ aw ah : ℚ, V1.arrange_images_on_page [] 0 aw ah = ([], 0)) ∧
    (∀ aw ah : ℚ, V2.arrange_all_images_on_single_page [] aw ah = []) ∧
    (∀ aw ah : ℚ, V3.arrange_all_images_on_single_page [] aw ah = []) := by
  refine ⟨rfl, rfl, rfl, rfl, rfl, rfl, rfl, ?_, ?_, ?_⟩
  · intro aw ah; rfl
  · intro aw ah; rfl
  · intro aw ah; rfl

/-- Claim C6: an image whose dimension probe fails is skipped without a
fatal error: it is excluded from all placement output (every emitted
placement's input index points at an image whose probe succeeds), it does
not change the accounting of the remaining images (the total number of
placements equals the number of probe-successful images, for the whole
multi-page v1 run and for the v2 grid), and in particular a folder of 5
images of which exactly one is corrupt yields exactly 4 placements. -/
theorem claim_C6 :
    (∀ (aw ah : ℚ) (image_files : List ImageFile) (fuel current_idx : ℕ)
        (page : List Placement) (p : Placement),
        page ∈ V1.create_pdf_aux aw ah image_files fuel current_idx →
        p ∈ page →
        probeOk (image_files.getD p.idx none) = true) ∧
    (∀ (image_files : List ImageFile) (aw ah : ℚ) (p : Placement),
        p ∈ V2.arrange_all_images_on_single_page image_files aw ah →
        probeOk (image_files.getD p.idx none) = true) ∧
    (∀ image_files : List ImageFile,
        (((V1.create_pdf_from_images image_files).pages.map
          List.length).sum : ℕ) = image_files.countP probeOk) ∧
    (∀ (image_files : List ImageFile) (aw ah : ℚ),
        (V2.arrange_all_images_on_single_page image_files aw ah).length =
          image_files.countP probeOk) ∧
    (((V1.create_pdf_from_images
        [some ⟨800, 600⟩, some ⟨800, 600⟩, none, some ⟨800, 600⟩,
          some ⟨800, 600⟩]).pages.map List.length).sum : ℕ) = 4 ∧
    (V2.arrange_all_images_on_single_page
        [some ⟨800, 600⟩, some ⟨800, 600⟩, none, some ⟨800, 600⟩,
          some ⟨800, 600⟩] (A4_WIDTH - 2 * MARGIN)
        (A4_HEIGHT - 2 * MARGIN)).length = 4 := by
  have hv1excl : ∀ (aw ah : ℚ) (image_files : List ImageFile)
      (fuel current_idx : ℕ) (page : List Placement) (p : Placement),
      page ∈ V1.create_pdf_aux aw ah image_files fuel current_idx →
      p ∈ page → probeOk (image_files.getD p.idx none) = true := by
    intro aw ah image_files fuel current_idx page p hpage hp
    obtain ⟨bw, bh, hcalc⟩ :=
      V1.create_pdf_aux_mem aw ah image_files fuel current_idx page p hpage hp
    have := calc_dims_isSome_iff (image_files.getD p.idx none) bw bh
    rw [hcalc] at this
    exact this.symm
  have hv2excl : ∀ (image_files : List ImageFile) (aw ah : ℚ) (p : Placement),
      p ∈ V2.arrange_all_images_on_single_page image_files aw ah →
      probeOk (image_files.getD p.idx none) = true := by
    intro image_files aw ah p hp
    unfold V2.arrange_all_images_on_single_page at hp
    by_cases h0 : image_files.length = 0
    · rw [if_pos h0] at hp; simp at hp
    · rw [if_neg h0] at hp
      obtain ⟨-, -, hcalc, -, -⟩ := V2.arrangeAux_mem _ _ _ hp
      simp only [Nat.sub_zero] at hcalc
      have hsome := congrArg Option.isSome hcalc
      rw [calc_dims_isSome_iff] at hsome
      simpa using hsome
  have hv1count : ∀ image_files : List ImageFile,
      (((V1.create_pdf_from_images image_files).pages.map
        List.length).sum : ℕ) = image_files.countP probeOk := by
    intro image_files
    unfold V1.create_pdf_from_images
    by_cases h0 : image_files = []
    · subst h0; rfl
    · rw [if_neg h0]
      show ((V1.create_pdf_aux (A4_WIDTH - 2 * MARGIN) (A4_HEIGHT - 2 * MARGIN)
        image_files image_files.length 0).map List.length).sum = _
      rw [V1.create_pdf_aux_count _ _ image_files image_files.length 0 (by omega)]
      rfl
  have hv2count : ∀ (image_files : List ImageFile) (aw ah : ℚ),
      (V2.arrange_all_images_on_single_page image_files aw ah).length =
        image_files.countP probeOk := by
    intro image_files aw ah
    unfold V2.arrange_all_images_on_single_page
    by_cases h0 : image_files.length = 0
    · rw [if_pos h0]
      have : image_files = [] := List.length_eq_zero.mp h0
      subst this
      rfl
    · rw [if_neg h0]
      exact V2.arrangeAux_length _ _
  refine ⟨hv1excl, hv2excl, hv1count, hv2count, ?_, ?_⟩
  · rw [hv1count]
    decide
  · rw [hv2count]
    decide

/-! ### Claim C1: aspect-ratio preservation in every algorithm -/

/-- Concrete v2 grid run used below: one 2x2 image in a 100x200 canvas
lands in the single cell of the 1x1 grid, scaled by 50 and centered. -/
theorem v2_run_single :
    V2.arrange_all_images_on_single_page [some ⟨2, 2⟩] 100 200 =
      [{ idx := 0, x := 0, y := 50, width := 100, height := 100,
         scale := 50 }] := by
  norm_num [V2.arrange_all_images_on_single_page, V2.arrangeAux,
    calculate_grid_layout, calculate_image_dimensions, V2.spacing, min_def]

/-- Claim C1: in every algorithm (flow v1, grid v2, spiral v3), every
emitted placement comes from an image whose dimension probe succeeded
with positive pixel dimensions, and its width and height are the original
pixel width and height each multiplied by the one common scale factor
min(maxWidth/origWidth, maxHeight/origHeight) of its bounding box, so
width * origHeight = height * origWidth exactly: the aspect ratio is
preserved. -/
theorem claim_C1 :
    (∀ (aw ah : ℚ) (image_files : List ImageFile) (fuel current_idx : ℕ)
        (page : List Placement) (p : Placement),
        page ∈ V1.create_pdf_aux aw ah image_files fuel current_idx →
        p ∈ page →
        ∃ (d : ImageDims) (bw bh : ℚ),
          image_files.getD p.idx none = some d ∧ 0 < d.w ∧ 0 < d.h ∧
          p.scale = min (bw / (d.w : ℚ)) (bh / (d.h : ℚ)) ∧
          p.width = (d.w : ℚ) * p.scale ∧ p.height = (d.h : ℚ) * p.scale ∧
          p.width * (d.h : ℚ) = p.height * (d.w : ℚ)) ∧
    (∀ (image_files : List ImageFile) (aw ah : ℚ) (p : Placement),
        p ∈ V2.arrange_all_images_on_single_page image_files aw ah →
        ∃ (d : ImageDims) (bw bh : ℚ),
          image_files.getD p.idx none = some d ∧ 0 < d.w ∧ 0 < d.h ∧
          p.scale = min (bw / (d.w : ℚ)) (bh / (d.h : ℚ)) ∧
          p.width = (d.w : ℚ) * p.scale ∧ p.height = (d.h : ℚ) * p.scale ∧
          p.width * (d.h : ℚ) = p.height * (d.w : ℚ)) ∧
    (∀ (image_files : List ImageFile) (aw ah : ℚ) (p : Placement),
        p ∈ V3.arrange_all_images_on_single_page image_files aw ah →
        ∃ (d : ImageDims) (bw bh : ℚ),
          image_files.getD p.idx none = some d ∧ 0 < d.w ∧ 0 < d.h ∧
          p.scale = min (bw / (d.w : ℚ)) (bh / (d.h : ℚ)) ∧
          p.width = (d.w : ℚ) * p.scale ∧ p.height = (d.h : ℚ) * p.scale ∧
          p.width * (d.h : ℚ) = p.height * (d.w : ℚ)) := by
  refine ⟨?_, ?_, ?_⟩
  · intro aw ah image_files fuel current_idx page p hpage hp
    obtain ⟨bw, bh, hcalc⟩ :=
      V1.create_pdf_aux_mem aw ah image_files fuel current_idx page p hpage hp
    obtain ⟨d, hd, hw0, hh0, hs, hw, hh⟩ := calc_dims_eq_some hcalc
    exact ⟨d, bw, bh, hd, Nat.pos_of_ne_zero hw0, Nat.pos_of_ne_zero hh0,
      hs, hw, hh, by rw [hw, hh]; ring⟩
  · intro image_files aw ah p hp
    unfold V2.arrange_all_images_on_single_page at hp
    by_cases h0 : image_files.length = 0
    · rw [if_pos h0] at hp
      simp at hp
    · rw [if_neg h0] at hp
      obtain ⟨-, -, hcalc, -, -⟩ := V2.arrangeAux_mem _ _ _ hp
      simp only [Nat.sub_zero] at hcalc
      obtain ⟨d, hd, hw0, hh0, hs, hw, hh⟩ := calc_dims_eq_some hcalc
      exact ⟨d, _, _, hd, Nat.pos_of_ne_zero hw0, Nat.pos_of_ne_zero hh0,
        hs, hw, hh, by rw [hw, hh]; ring⟩
  · intro image_files aw ah p hp
    unfold V3.arrange_all_images_on_single_page at hp
    by_cases h0 : image_files.length = 0
    · rw [if_pos h0] at hp
      simp at hp
    · rw [if_neg h0] at hp
      obtain ⟨-, -, -, hcalc, -, -⟩ := V3.arrangeAux_mem_sp _ _ _ hp
      simp only [Nat.sub_zero] at hcalc
      obtain ⟨d, hd, hw0, hh0, hs, hw, hh⟩ := calc_dims_eq_some hcalc
      exact ⟨d, _, _, hd, Nat.pos_of_ne_zero hw0, Nat.pos_of_ne_zero hh0,
        hs, hw, hh, by rw [hw, hh]; ring⟩

/-- Witness for C1 at a concrete grid run: the single 2x2 image in a
100x200 canvas is placed with scale 50, width 100 = 2 * 50 and height
100 = 2 * 50, preserving the 1:1 aspect ratio. -/
theorem claim_C1_witness :
    ((⟨0, 0, 50, 100, 100, 50⟩ : Placement) ∈
        V2.arrange_all_images_on_single_page [some ⟨2, 2⟩] 100 200) ∧
    ∃ (d : ImageDims) (bw bh : ℚ),
      ([some (⟨2, 2⟩ : ImageDims)] : List ImageFile).getD
          (⟨0, 0, 50, 100, 100, 50⟩ : Placement).idx none = some d ∧
      0 < d.w ∧ 0 < d.h ∧
      (⟨0, 0, 50, 100, 100, 50⟩ : Placement).scale =
        min (bw / (d.w : ℚ)) (bh / (d.h : ℚ)) ∧
      (⟨0, 0, 50, 100, 100, 50⟩ : Placement).width =
        (d.w : ℚ) * (⟨0, 0, 50, 100, 100, 50⟩ : Placement).scale ∧
      (⟨0, 0, 50, 100, 100, 50⟩ : Placement).height =
        (d.h : ℚ) * (⟨0, 0, 50, 100, 100, 50⟩ : Placement).scale ∧
      (⟨0, 0, 50, 100, 100, 50⟩ : Placement).width * (d.h : ℚ) =
        (⟨0, 0, 50, 100, 100, 50⟩ : Placement).height * (d.w : ℚ) := by
  have hmem : (⟨0, 0, 50, 100, 100, 50⟩ : Placement) ∈
      V2.arrange_all_images_on_single_page [some ⟨2, 2⟩] 100 200 := by
    rw [v2_run_single]
    exact List.mem_singleton_self _
  exact ⟨hmem, claim_C1.2.1 [some ⟨2, 2⟩] 100 200 _ hmem⟩

/-! ### Claim C5: placements stay in their bounds and never overlap -/

namespace V2

/-- `rows` of the grid the v2 arranger derives from the image count
(line 100 of v2). -/
def gridRows (N : ℕ) : ℕ := (calculate_grid_layout N).1

/-- `cols` of the grid the v2 arranger derives from the image count
(line 100 of v2). -/
def gridCols (N : ℕ) : ℕ := (calculate_grid_layout N).2

/-- `cell_width` from line 110 of v2. -/
def cellW (N : ℕ) (available_width : ℚ) : ℚ :=
  (available_width - ((gridCols N : ℚ) - 1) * spacing) / (gridCols N : ℚ)

/-- `cell_height` from line 111 of v2. -/
def cellH (N : ℕ) (available_height : ℚ) : ℚ :=
  (available_height - ((gridRows N : ℚ) - 1) * spacing) / (gridRows N : ℚ)

theorem arrange_all_eq (image_files : List ImageFile) (aw ah : ℚ)
    (h0 : image_files.length ≠ 0) :
    arrange_all_images_on_single_page image_files aw ah =
      arrangeAux (gridCols image_files.length) (cellW image_files.length aw)
        (cellH image_files.length ah) ah 0 image_files := by
  unfold arrange_all_images_on_single_page cellW cellH gridCols gridRows
  rw [if_neg h0]

end V2

/-- Concrete v1 flow run used below: a single 1x1 image on a 100x100
canvas makes one page with one row holding the image at size 60x60. -/
theorem v1_run_row :
    (V1.arrange_images_on_page [some ⟨1, 1⟩] 0 100 100).1 =
      [[⟨0, 60, 60, 60⟩]] := by
  norm_num [V1.arrange_images_on_page, V1.arrangeOuter, V1.fitRowAux,
    V1.enumFromIdx, calculate_image_dimensions, min_def, max_def]

/-- Claim C5: the placements emitted for one page never overlap and each
lies within its algorithm's allotted bounds.  In flow layout (v1) every
kept row is nonempty with total image width plus 10pt inter-image gaps at
most the available width, and the kept rows' heights plus 10pt inter-row
gaps total at most the available height.  In grid layout (v2) and spiral
layout (v3) every placement lies inside its own cell, the emitted cell
indices are pairwise distinct, and placements with distinct indices
occupy disjoint cells, hence never overlap. -/
theorem claim_C5 :
    (∀ (image_files : List ImageFile) (start_idx : ℕ) (aw ah : ℚ),
        ∀ row ∈ (V1.arrange_images_on_page image_files start_idx aw ah).1,
          row ≠ [] ∧
          ((row.map V1.RowImg.width).sum : ℚ) +
            10 * ((row.length : ℚ) - 1) ≤ aw) ∧
    (∀ (image_files : List ImageFile) (start_idx : ℕ) (aw ah : ℚ),
        (V1.arrange_images_on_page image_files start_idx aw ah).1 ≠ [] →
        (((V1.arrange_images_on_page image_files start_idx aw ah).1.map
            V1.rowH0).sum : ℚ) +
          10 * (((V1.arrange_images_on_page image_files start_idx
            aw ah).1.length : ℚ) - 1) ≤ ah) ∧
    (∀ (image_files : List ImageFile) (aw ah : ℚ) (p : Placement),
        p ∈ V2.arrange_all_images_on_single_page image_files aw ah →
        V2.cellX (V2.gridCols image_files.length)
            (V2.cellW image_files.length aw) p.idx ≤ p.x ∧
        p.x + p.width ≤ V2.cellX (V2.gridCols image_files.length)
            (V2.cellW image_files.length aw) p.idx +
            V2.cellW image_files.length aw ∧
        V2.cellY (V2.gridCols image_files.length)
            (V2.cellH image_files.length ah) ah p.idx ≤ p.y ∧
        p.y + p.height ≤ V2.cellY (V2.gridCols image_files.length)
            (V2.cellH image_files.length ah) ah p.idx +
            V2.cellH image_files.length ah) ∧
    (∀ (image_files : List ImageFile) (aw ah : ℚ) (p q : Placement),
        p ∈ V2.arrange_all_images_on_single_page image_files aw ah →
        q ∈ V2.arrange_all_images_on_single_page image_files aw ah →
        p.idx ≠ q.idx → ¬ overlaps p q) ∧
    (∀ (image_files : List ImageFile) (aw ah : ℚ),
        ((V2.arrange_all_images_on_single_page image_files aw ah).map
          Placement.idx).Nodup) ∧
    (∀ (image_files : List ImageFile) (aw ah : ℚ) (p : Placement),
        p ∈ V3.arrange_all_images_on_single_page image_files aw ah →
        V3.cellX (V3.generate_spiral_positions image_files.length)
            (V3.offsetX image_files.length aw ah)
            (V3.cellSize image_files.length aw ah) p.idx ≤ p.x ∧
        p.x + p.width ≤
          V3.cellX (V3.generate_spiral_positions image_files.length)
            (V3.offsetX image_files.length aw ah)
            (V3.cellSize image_files.length aw ah) p.idx +
            V3.cellSize image_files.length aw ah ∧
        V3.cellY (V3.generate_spiral_positions image_files.length)
            (V3.offsetY image_files.length aw ah)
            (V3.cellSize image_files.length aw ah) p.idx ≤ p.y ∧
        p.y + p.height ≤
          V3.cellY (V3.generate_spiral_positions image_files.length)
            (V3.offsetY image_files.length aw ah)
            (V3.cellSize image_files.length aw ah) p.idx +
            V3.cellSize image_files.length aw ah) ∧
    (∀ (image_files : List ImageFile) (aw ah : ℚ) (p q : Placement),
        p ∈ V3.arrange_all_images_on_single_page image_files aw ah →
        q ∈ V3.arrange_all_images_on_single_page image_files aw ah →
        p.idx ≠ q.idx → ¬ overlaps p q) ∧
    (∀ (image_files : List ImageFile) (aw ah : ℚ),
        ((V3.arrange_all_images_on_single_page image_files aw ah).map
          Placement.idx).Nodup) := by
  refine ⟨?_, ?_, ?_, ?_, ?_, ?_, ?_, ?_⟩
  · intro image_files start_idx aw ah row hrow
    exact V1.arrangeOuter_rows aw ah _ _ _ row hrow
  · intro image_files start_idx aw ah hne
    exact V1.arrangeOuter_height_sum aw ah _ _ _ hne
  · intro image_files aw ah p hp
    by_cases h0 : image_files.length = 0
    · unfold V2.arrange_all_images_on_single_page at hp
      rw [if_pos h0] at hp
      simp at hp
    · rw [V2.arrange_all_eq image_files aw ah h0] at hp
      exact V2.placement_in_cell hp
  · intro image_files aw ah p q hp hq hne
    by_cases h0 : image_files.length = 0
    · unfold V2.arrange_all_images_on_single_page at hp
      rw [if_pos h0] at hp
      simp at hp
    · rw [V2.arrange_all_eq image_files aw ah h0] at hp hq
      exact V2.no_overlap hp hq hne
  · intro image_files aw ah
    by_cases h0 : image_files.length = 0
    · unfold V2.arrange_all_images_on_single_page
      rw [if_pos h0]
      simp
    · rw [V2.arrange_all_eq image_files aw ah h0]
      have hpw := @V2.arrangeAux_pairwise_idx (V2.gridCols image_files.length)
        (V2.cellW image_files.length aw) (V2.cellH image_files.length ah) ah
        image_files 0
      exact (List.pairwise_map).mpr (hpw.imp fun h => Nat.ne_of_lt h)
  · intro image_files aw ah p hp
    by_cases h0 : image_files.length = 0
    · unfold V3.arrange_all_images_on_single_page at hp
      rw [if_pos h0] at hp
      simp at hp
    · rw [V3.arrange_all_eq_sp image_files aw ah (by omega)] at hp
      exact V3.placement_in_cell_sp hp
  · intro image_files aw ah p q hp hq hne
    by_cases h0 : image_files.length = 0
    · unfold V3.arrange_all_images_on_single_page at hp
      rw [if_pos h0] at hp
      simp at hp
    · rw [V3.arrange_all_eq_sp image_files aw ah (by omega)] at hp hq
      exact V3.no_overlap_sp (V3.generate_nodup _) hp hq hne
  · intro image_files aw ah
    by_cases h0 : image_files.length = 0
    · unfold V3.arrange_all_images_on_single_page
      rw [if_pos h0]
      simp
    · rw [V3.arrange_all_eq_sp image_files aw ah (by omega)]
      have hpw := @V3.arrangeAux_pairwise_idx_sp
        (V3.generate_spiral_positions image_files.length)
        (V3.cellSize image_files.length aw ah)
        (V3.offsetX image_files.length aw ah)
        (V3.offsetY image_files.length aw ah) image_files 0
      exact (List.pairwise_map).mpr (hpw.imp fun h => Nat.ne_of_lt h)

/-- Witness for C5 at a concrete flow run: the one kept row of the
100x100 run on a single 1x1 image is nonempty and its width sum 60 plus
gaps stays within the available width 100. -/
theorem claim_C5_witness :
    ([(⟨0, 60, 60, 60⟩ : V1.RowImg)] ∈
        (V1.arrange_images_on_page [some ⟨1, 1⟩] 0 100 100).1) ∧
    [(⟨0, 60, 60, 60⟩ : V1.RowImg)] ≠ [] ∧
    (([(⟨0, 60, 60, 60⟩ : V1.RowImg)].map V1.RowImg.width).sum : ℚ) +
      10 * (([(⟨0, 60, 60, 60⟩ : V1.RowImg)].length : ℚ) - 1) ≤ 100 := by
  have hmem : [(⟨0, 60, 60, 60⟩ : V1.RowImg)] ∈
      (V1.arrange_images_on_page [some ⟨1, 1⟩] 0 100 100).1 := by
    rw [v1_run_row]
    exact List.mem_singleton_self _
  exact ⟨hmem, claim_C5.1 [some ⟨1, 1⟩] 0 100 100 _ hmem⟩

/-! ### Claim C8: the flow fallback page for an image fitting no row -/

/-- Claim C8: in flow layout, when a fresh page starting at the current
image accepts no row (the 50pt minimums cannot be met), the run instead
emits a page holding exactly that one image, sized by the
aspect-ratio-preserving fit to the full margin-adjusted canvas `aw x ah`
(so it touches the full bound: width = aw or height = ah) and centered on
the page (equal gaps left/right and bottom/top inside the canvas), and
then continues with the next image. -/
theorem claim_C8 (aw ah : ℚ) (image_files : List ImageFile)
    (fuel current_idx : ℕ) (w h s : ℚ)
    (hidx : current_idx < image_files.length)
    (hempty : (V1.arrange_images_on_page image_files current_idx aw ah).1 = [])
    (hcalc : calculate_image_dimensions (image_files.getD current_idx none)
      aw ah = some (w, h, s)) :
    V1.create_pdf_aux aw ah image_files (fuel + 1) current_idx =
      [{ idx := current_idx, x := MARGIN + (aw - w) / 2,
         y := MARGIN + (ah - h) / 2, width := w, height := h, scale := s }] ::
        V1.create_pdf_aux aw ah image_files fuel (current_idx + 1) ∧
    MARGIN + (aw - w) / 2 - MARGIN =
      MARGIN + aw - (MARGIN + (aw - w) / 2 + w) ∧
    MARGIN + (ah - h) / 2 - MARGIN =
      MARGIN + ah - (MARGIN + (ah - h) / 2 + h) ∧
    w ≤ aw ∧ h ≤ ah ∧ (w = aw ∨ h = ah) ∧
    ∃ d : ImageDims, image_files.getD current_idx none = some d ∧
      w * (d.h : ℚ) = h * (d.w : ℚ) := by
  obtain ⟨d, hd, -, -, -, -, har, hwle, hhle, hfull⟩ := calc_dims_shape hcalc
  refine ⟨?_, by ring, by ring, hwle, hhle, hfull, d, hd, har⟩
  simp only [V1.create_pdf_aux]
  rw [if_neg (by omega), if_pos hempty, hcalc]

/-- Witness for C8: a 4x3 image on a 40-wide, 100-tall canvas fits no row
(the canvas is narrower than the 50pt minimum), so it gets its own page,
scaled to the full canvas width (40x30, scale 10) and centered. -/
theorem claim_C8_witness :
    V1.create_pdf_aux 40 100 [some ⟨4, 3⟩] 1 0 =
      [{ idx := 0, x := MARGIN + (40 - 40) / 2, y := MARGIN + (100 - 30) / 2,
         width := 40, height := 30, scale := 10 }] ::
        V1.create_pdf_aux 40 100 [some ⟨4, 3⟩] 0 1 ∧
    MARGIN + ((40 : ℚ) - 40) / 2 - MARGIN =
      MARGIN + 40 - (MARGIN + (40 - 40) / 2 + 40) ∧
    MARGIN + ((100 : ℚ) - 30) / 2 - MARGIN =
      MARGIN + 100 - (MARGIN + (100 - 30) / 2 + 30) ∧
    (40 : ℚ) ≤ 40 ∧ (30 : ℚ) ≤ 100 ∧ ((40 : ℚ) = 40 ∨ (30 : ℚ) = 100) ∧
    ∃ d : ImageDims, ([some (⟨4, 3⟩ : ImageDims)] : List ImageFile).getD 0 none
        = some d ∧ (40 : ℚ) * (d.h : ℚ) = 30 * (d.w : ℚ) :=
  claim_C8 40 100 [some ⟨4, 3⟩] 0 0 40 30 10 (by decide)
    (by norm_num [V1.arrange_images_on_page, V1.arrangeOuter, V1.fitRowAux,
      V1.enumFromIdx])
    (by norm_num [calculate_image_dimensions, min_def])

/-! ### Claim C4: flow target box, largest fit, and stopping thresholds -/

/-- Counterexample to C4 as stated: the spec says a page stops accepting
rows exactly when the remaining page height is < 50pt, but line 76 of v1
loops `while remaining_height > 50`, so a page already stops at exactly
50pt.  Concretely: a fresh page with available height exactly 50 and an
image available accepts no rows, although 50 < 50 is false. -/
theorem claim_C4_counterexample :
    (V1.arrange_images_on_page [some ⟨1, 1⟩] 0 100 50).1 = [] ∧
    ¬ ((50 : ℚ) < 50) := by
  constructor
  · norm_num [V1.arrange_images_on_page, V1.arrangeOuter, V1.enumFromIdx]
  · norm_num

/-- Claim C4 (amended): in flow layout, each image accepted into a row
was fitted to the target box min(remaining row width, 0.8 * aw) by
min(remaining page height, 0.6 * ah) where the remainders account for the
previously accepted images and rows with their 10pt gaps; the placed size
is the largest aspect-ratio-preserving size fitting that box (it
preserves the ratio, fits the box, and touches one of its sides); a row
stops accepting images with images still remaining only once the
remaining row width has dropped to at most 50pt (the loop continues while
it exceeds 50pt, so it stops at exactly 50pt, not below it); and a page
stops accepting rows with images still remaining only once the remaining
page height has dropped to at most 50pt. -/
theorem claim_C4 :
    (∀ (image_files : List ImageFile) (start_idx : ℕ) (aw ah : ℚ)
        (ppre : List (List V1.RowImg)) (prow : List V1.RowImg)
        (ppost : List (List V1.RowImg)) (pre : List V1.RowImg)
        (r : V1.RowImg) (post : List V1.RowImg),
        (V1.arrange_images_on_page image_files start_idx aw ah).1 =
          ppre ++ prow :: ppost →
        prow = pre ++ r :: post →
        ∃ img, (r.idx, img) ∈ V1.enumFromIdx start_idx
            (image_files.drop start_idx) ∧
          calculate_image_dimensions img
              (min (aw - V1.consumedW pre) (aw * (8 / 10)))
              (min (ah - V1.consumedRows ppre) (ah * (6 / 10))) =
            some (r.width, r.height, r.scale) ∧
          ∃ d : ImageDims, img = some d ∧
            r.width * (d.h : ℚ) = r.height * (d.w : ℚ) ∧
            r.width ≤ min (aw - V1.consumedW pre) (aw * (8 / 10)) ∧
            r.height ≤ min (ah - V1.consumedRows ppre) (ah * (6 / 10)) ∧
            (r.width = min (aw - V1.consumedW pre) (aw * (8 / 10)) ∨
              r.height = min (ah - V1.consumedRows ppre) (ah * (6 / 10)))) ∧
    (∀ (aw ah remH : ℚ) (l : List (ℕ × ImageFile)) (remW rowH : ℚ),
        (V1.fitRowAux aw ah remH l remW rowH).2.2 ≠ [] →
        remW - V1.consumedW (V1.fitRowAux aw ah remH l remW rowH).1 ≤ 50) ∧
    (∀ (image_files : List ImageFile) (start_idx : ℕ) (aw ah : ℚ),
        50 < aw →
        (V1.arrange_images_on_page image_files start_idx aw ah).2 <
          image_files.length →
        ah - V1.consumedRows
          (V1.arrange_images_on_page image_files start_idx aw ah).1 ≤ 50) := by
  refine ⟨?_, ?_, ?_⟩
  · intro image_files start_idx aw ah ppre prow ppost pre r post hpages hprow
    obtain ⟨img, hmem, hc⟩ := V1.arrangeOuter_spec aw ah
      (V1.enumFromIdx start_idx (image_files.drop start_idx)).length
      (V1.enumFromIdx start_idx (image_files.drop start_idx)) ah
      ppre prow ppost hpages pre r post hprow
    obtain ⟨d, hd, -, -, -, -, har, hwle, hhle, hfull⟩ := calc_dims_shape hc
    exact ⟨img, hmem, hc, d, hd, har, hwle, hhle, hfull⟩
  · intro aw ah remH l remW rowH hne
    exact V1.fitRowAux_stop aw ah remH l remW rowH hne
  · intro image_files start_idx aw ah haw hlt
    have hlt2 : start_idx +
        ((V1.enumFromIdx start_idx (image_files.drop start_idx)).length -
          (V1.arrangeOuter aw ah
            (V1.enumFromIdx start_idx (image_files.drop start_idx)).length
            (V1.enumFromIdx start_idx (image_files.drop start_idx))
            ah).2.length) < image_files.length := hlt
    show ah - V1.consumedRows (V1.arrangeOuter aw ah
        (V1.enumFromIdx start_idx (image_files.drop start_idx)).length
        (V1.enumFromIdx start_idx (image_files.drop start_idx)) ah).1 ≤ 50
    refine V1.arrangeOuter_stop aw ah _ _ ah le_rfl haw ?_
    intro hcon
    rw [hcon] at hlt2
    have hlen : (V1.enumFromIdx start_idx (image_files.drop start_idx)).length
        = image_files.length - start_idx := by
      rw [V1.enumFromIdx_length, List.length_drop]
    simp only [List.length_nil, Nat.sub_zero] at hlt2
    omega

/-- Witness for C4 (amended) at a concrete row: with remaining row width
40 ≤ 50 and an image still unconsumed, the inner loop accepts nothing and
the remaining width 40 is indeed at most 50. -/
theorem claim_C4_witness :
    (V1.fitRowAux 100 100 100 [(0, some ⟨1, 1⟩)] 40 0).2.2 ≠ [] ∧
    (40 : ℚ) - V1.consumedW
        (V1.fitRowAux 100 100 100 [(0, some ⟨1, 1⟩)] 40 0).1 ≤ 50 := by
  have hne : (V1.fitRowAux 100 100 100 [(0, some ⟨1, 1⟩)] 40 0).2.2 ≠ [] := by
    norm_num [V1.fitRowAux]
  exact ⟨hne, claim_C4.2.1 100 100 100 [(0, some ⟨1, 1⟩)] 40 0 hne⟩

/-- Witness for C6 at a concrete grid run: the placement emitted for the
single 2x2 image points at an image whose dimension probe succeeds. -/
theorem claim_C6_witness :
    ((⟨0, 0, 50, 100, 100, 50⟩ : Placement) ∈
        V2.arrange_all_images_on_single_page [some ⟨2, 2⟩] 100 200) ∧
    probeOk (([some (⟨2, 2⟩ : ImageDims)] : List ImageFile).getD
        (⟨0, 0, 50, 100, 100, 50⟩ : Placement).idx none) = true := by
  have hmem : (⟨0, 0, 50, 100, 100, 50⟩ : Placement) ∈
      V2.arrange_all_images_on_single_page [some ⟨2, 2⟩] 100 200 := by
    rw [v2_run_single]
    exact List.mem_singleton_self _
  exact ⟨hmem, claim_C6.2.1 [some ⟨2, 2⟩] 100 200 _ hmem⟩

end PhotoScoop
